import Mathlib

/-!
# REST command codec and service dispatcher

A shallow embedding of the Go package `rest` (files `protocol.go`, `service.go` and
`proxy.go`): the command model, the translation of a `Task` to and from an HTTP
request, the dispatcher that checks preconditions before it calls a handler, and the
proxy that sends a task and retries once.

Modelling conventions.

* A Go `map[string]T` is an association list whose most recent binding comes first:
  a store `m[k] = v` is a cons, a read takes the first binding of the key, and a
  `range` visits every key once (`GoMap.keys`).  Go leaves the order of a `range`
  open; the model visits the keys in list order.
* A Go `string` is a Lean `String`, that is, well-formed Unicode text, and a Go `int`
  is an `Int` with the bounds of 64 bits stated where they matter.  Where a result
  depends on strings that are not valid UTF-8, the strings are byte sequences
  (`GoString`) and the text that `encoding/json` makes of them is `GoString.text`.
* `encoding/json` is modelled on JSON trees: `json.Marshal` builds a tree and
  `json.Unmarshal` walks one, so the text in between is not represented.  In the
  same way the query string of a URL is represented by the `url.Values` it denotes.
* Collaborators that live outside the package (the resource store, the business
  handlers, `quark.Task.Failed`, the end point) are parameters.
* Every call that the dispatcher makes to a collaborator is recorded as an `Event`,
  in the order in which the Go code makes it; the calls of the proxy are recorded
  as `ProxyEvent`s in the same way.
-/

namespace Rest

/-! ## Go maps -/

/-- A Go map with string keys, the most recent binding first. -/
abbrev GoMap (V : Type) := List (String × V)

namespace GoMap

/-- The read `m[k]` together with its presence flag. -/
def get? {V : Type} (m : GoMap V) (k : String) : Option V :=
  List.lookup k m

/-- The store `m[k] = v`. -/
def set {V : Type} (m : GoMap V) (k : String) (v : V) : GoMap V :=
  (k, v) :: m

/-- The keys that a `range` over the map visits: every key once. -/
def keys {V : Type} : GoMap V → List String
  | [] => []
  | (k, _) :: rest => k :: (keys rest).filter (fun x => x != k)

end GoMap

/-! ## JSON trees -/

/-- A JSON document.  Numbers are kept as integers; an object keeps its members in
document order and may repeat a key, as JSON text may. -/
inductive Json where
  | null
  | bool (b : Bool)
  | num (n : Int)
  | str (s : String)
  | arr (items : List Json)
  | obj (members : List (String × Json))

/-! ## Command model (`protocol.go`, lines 29-51) -/

/-- A value held in `GetCmd.Conds` (Go `interface{}`): a string, an `int`, or any
other value, which the codec only ever formats with `%v` and which is therefore
represented by that text. -/
inductive CondValue where
  | str (s : String)
  | int (n : Int)
  | other (text : String)
  deriving DecidableEq, Repr

/-- The interface `Resource` as the codec and the dispatcher use it: the results of
`GetResourceType`, `ResourceID`, `Validate` (the error, if any) and `json.Marshal`. -/
structure Resource where
  rtype : String
  id : String
  invalid : Option String
  json : Json

/-- The five command structs.  `NewAttrs` is `none` for a nil map. -/
inductive Command where
  | GetCmd (ResourceType : String) (Conds : GoMap CondValue)
  | PostCmd (NewResource : Resource)
  | DeleteCmd (ResourceType : String) (Id : String)
  | PutCmd (NewResource : Resource)
  | PatchCmd (ResourceType : String) (Id : String) (NewAttrs : Option (GoMap Json))

/-- The struct `quark.Task` as this package uses it. -/
structure Task where
  User : String
  Cmds : List Command

/-! ## Service dispatcher (`service.go`) -/

/-- An observable call made by `restServiceAdaptor.HandleTask`. -/
inductive Event where
  | Begin
  | Commit
  | Validate (r : Resource)
  | Count (rt : String) (id : String)
  | HandleGet
  | HandlePost
  | HandlePut
  | HandleDelete
  | HandlePatch

/-- The part of `ResourceStore` that the dispatcher uses: the answer of
`tx.Count(rt, filter)`, the filter binding `id`, inside the transaction opened by
`Begin`.  The code drops the error of `Begin`; the call is taken to yield a
transaction. -/
structure ResourceStore where
  Count : String → String → Except String Int

/-- The interface `RestService` (the five handlers) together with `quark`'s
`Task.Failed`, over a result type `R` standing for `*quark.TaskResult`. -/
structure RestService (R : Type) where
  HandleGet : Task → R
  HandlePost : Task → R
  HandlePut : Task → R
  HandleDelete : Task → R
  HandlePatch : Task → R
  Failed : Task → String → R

/-- How a precondition loop ends: it runs to the end, it returns `t.Failed(err)`,
or it dereferences the nil pointer left by a failed type assertion. -/
inductive LoopExit where
  | pass
  | fail (err : String)
  | panic

/-- The outcome of one `HandleTask` call: the calls made, in order, and the value
returned (`none` when the call panics). -/
structure Outcome (R : Type) where
  trace : List Event
  result : Option R

/-- The loop of the `*PostCmd` case (lines 36-41). -/
def postLoop : List Command → List Event × LoopExit
  | [] => ([], .pass)
  | .PostCmd r :: rest =>
    match r.invalid with
    | some err => ([.Validate r], .fail err)
    | none =>
      let out := postLoop rest
      (.Validate r :: out.1, out.2)
  | _ :: _ => ([], .panic)

/-- The loop of the `*DeleteCmd` case (lines 46-54). -/
def deleteLoop (store : ResourceStore) : List Command → List Event × LoopExit
  | [] => ([], .pass)
  | .DeleteCmd rt id :: rest =>
    match store.Count rt id with
    | .error err => ([.Count rt id], .fail ("db get delete resource failed:" ++ err))
    | .ok count =>
      if count = 0 then ([.Count rt id], .fail ("delete unknown resource: " ++ rt))
      else
        let out := deleteLoop store rest
        (.Count rt id :: out.1, out.2)
  | _ :: _ => ([], .panic)

/-- The loop of the `*PutCmd` case (lines 59-73). -/
def putLoop (store : ResourceStore) : List Command → List Event × LoopExit
  | [] => ([], .pass)
  | .PutCmd r :: rest =>
    match r.invalid with
    | some err => ([.Validate r], .fail err)
    | none =>
      match store.Count r.rtype r.id with
      | .error err =>
        ([.Validate r, .Count r.rtype r.id], .fail ("db get update resource failed:" ++ err))
      | .ok count =>
        if count = 0 then
          ([.Validate r, .Count r.rtype r.id], .fail ("update unknown resource: " ++ r.rtype))
        else
          let out := putLoop store rest
          (.Validate r :: .Count r.rtype r.id :: out.1, out.2)
  | _ :: _ => ([], .panic)

/-- The loop of the `*PatchCmd` case (lines 78-86). -/
def patchLoop (store : ResourceStore) : List Command → List Event × LoopExit
  | [] => ([], .pass)
  | .PatchCmd rt id _ :: rest =>
    match store.Count rt id with
    | .error err => ([.Count rt id], .fail ("db get update resource failed:" ++ err))
    | .ok count =>
      if count = 0 then ([.Count rt id], .fail ("update unknown resource: " ++ rt))
      else
        let out := patchLoop store rest
        (.Count rt id :: out.1, out.2)
  | _ :: _ => ([], .panic)

/-- A case that opens a transaction: `store.Begin()`, `defer tx.Commit()`, the loop,
then `return handler(store, t)`.  The deferred `Commit` runs when the function
returns, hence after the handler call of the `return` statement has been evaluated. -/
def guarded {R : Type} (svc : RestService R) (t : Task) (loop : List Event × LoopExit)
    (handlerEvent : Event) (handler : Task → R) : Outcome R :=
  match loop.2 with
  | .pass => ⟨.Begin :: loop.1 ++ [handlerEvent, .Commit], some (handler t)⟩
  | .fail err => ⟨.Begin :: loop.1 ++ [.Commit], some (svc.Failed t err)⟩
  | .panic => ⟨.Begin :: loop.1 ++ [.Commit], none⟩

namespace restServiceAdaptor

/-- The method `restServiceAdaptor.HandleTask` (lines 30-92).  An empty `Cmds` makes
`t.Cmds[0]` panic. -/
def HandleTask {R : Type} (svc : RestService R) (store : ResourceStore) (t : Task) :
    Outcome R :=
  match t.Cmds with
  | [] => ⟨[], none⟩
  | .GetCmd _ _ :: _ => ⟨[.HandleGet], some (svc.HandleGet t)⟩
  | .PostCmd _ :: _ =>
    let loop := postLoop t.Cmds
    match loop.2 with
    | .pass => ⟨loop.1 ++ [.HandlePost], some (svc.HandlePost t)⟩
    | .fail err => ⟨loop.1, some (svc.Failed t err)⟩
    | .panic => ⟨loop.1, none⟩
  | .DeleteCmd _ _ :: _ =>
    guarded svc t (deleteLoop store t.Cmds) .HandleDelete svc.HandleDelete
  | .PutCmd _ :: _ =>
    guarded svc t (putLoop store t.Cmds) .HandlePut svc.HandlePut
  | .PatchCmd _ _ _ :: _ =>
    guarded svc t (patchLoop store t.Cmds) .HandlePatch svc.HandlePatch

end restServiceAdaptor

/-- The event is a call on the store or on its transaction. -/
def Event.isStoreCall : Event → Bool
  | .Begin => true
  | .Commit => true
  | .Count _ _ => true
  | _ => false

/-- The event is a call of one of the five handlers. -/
def Event.isHandler : Event → Bool
  | .HandleGet => true
  | .HandlePost => true
  | .HandlePut => true
  | .HandleDelete => true
  | .HandlePatch => true
  | _ => false

/-- The `(resource type, id)` that the dispatcher looks up for a command. -/
def Command.lookupKey : Command → Option (String × String)
  | .DeleteCmd rt id => some (rt, id)
  | .PatchCmd rt id _ => some (rt, id)
  | .PutCmd r => some (r.rtype, r.id)
  | _ => none

/-- The command is a `*PutCmd`. -/
def Command.isPut : Command → Bool
  | .PutCmd _ => true
  | _ => false

/-- The command is a `*DeleteCmd`. -/
def Command.isDelete : Command → Bool
  | .DeleteCmd _ _ => true
  | _ => false

/-- The command is a `*PatchCmd`. -/
def Command.isPatch : Command → Bool
  | .PatchCmd _ _ _ => true
  | _ => false

/-- The command is a `*PostCmd`. -/
def Command.isPost : Command → Bool
  | .PostCmd _ => true
  | _ => false

/-- The error that `Validate` returns for the resource of a Post or Put command. -/
def Command.validationError : Command → Option String
  | .PostCmd r => r.invalid
  | .PutCmd r => r.invalid
  | _ => none

/-- The store reports that no resource exists under the key the command names. -/
def Command.countIsZero (store : ResourceStore) (c : Command) : Prop :=
  ∃ key, c.lookupKey = some key ∧ store.Count key.1 key.2 = .ok 0

/-! ## The preconditions, one command at a time

Section 4.2 of the specification states the preconditions per command: a Post
command validates its resource; a Put command validates its resource and then looks
it up; a Delete or Patch command looks its resource up; a lookup fails on a store
error and on a count of zero.  Section 5 adds that the commands are checked in
sequence order and that the first failure ends the checks.  The definitions below
follow these words; the loops of `HandleTask` are compared with them. -/

/-- The five kinds of command. -/
inductive Kind where
  | Get
  | Post
  | Put
  | Delete
  | Patch
  deriving DecidableEq, Repr

/-- The kind of a command. -/
def Command.kind : Command → Kind
  | .GetCmd _ _ => .Get
  | .PostCmd _ => .Post
  | .PutCmd _ => .Put
  | .DeleteCmd _ _ => .Delete
  | .PatchCmd _ _ _ => .Patch

/-- The event that stands for the call of the handler of a kind. -/
def Kind.handlerEvent : Kind → Event
  | .Get => .HandleGet
  | .Post => .HandlePost
  | .Put => .HandlePut
  | .Delete => .HandleDelete
  | .Patch => .HandlePatch

/-- The handler that the service supplies for a kind. -/
def RestService.handler {R : Type} (svc : RestService R) : Kind → Task → R
  | .Get => svc.HandleGet
  | .Post => svc.HandlePost
  | .Put => svc.HandlePut
  | .Delete => svc.HandleDelete
  | .Patch => svc.HandlePatch

/-- The kind has a precondition transaction: Put, Delete and Patch. -/
def Kind.guarded : Kind → Bool
  | .Put => true
  | .Delete => true
  | .Patch => true
  | _ => false

/-- The event is a precondition check: a `Validate` call or a `Count` lookup. -/
def Event.isCheck : Event → Bool
  | .Validate _ => true
  | .Count _ _ => true
  | _ => false

/-- The event is the call `store.Begin()`. -/
def Event.isBegin : Event → Bool
  | .Begin => true
  | _ => false

/-- The event is the call `tx.Commit()`. -/
def Event.isCommit : Event → Bool
  | .Commit => true
  | _ => false

/-- The failure of a lookup: the store error with its context, or the
`unknown resource` error that names the resource type when the count is zero.  The
word is `delete` for a Delete command and `update` for a Put or Patch command. -/
def lookupFailure (store : ResourceStore) (word : String) (rt : String) (id : String) :
    Option String :=
  match store.Count rt id with
  | .error err => some ("db get " ++ word ++ " resource failed:" ++ err)
  | .ok count => if count = 0 then some (word ++ " unknown resource: " ++ rt) else none

/-- The failure, if any, of the check of one command. -/
def Command.checkFailure (store : ResourceStore) : Command → Option String
  | .GetCmd _ _ => none
  | .PostCmd r => r.invalid
  | .PutCmd r =>
    match r.invalid with
    | some err => some err
    | none => lookupFailure store "update" r.rtype r.id
  | .DeleteCmd rt id => lookupFailure store "delete" rt id
  | .PatchCmd rt id _ => lookupFailure store "update" rt id

/-- The calls that the check of one command makes: a Put command is not looked up
once its resource has failed validation. -/
def Command.checkEvents : Command → List Event
  | .GetCmd _ _ => []
  | .PostCmd r => [.Validate r]
  | .PutCmd r =>
    match r.invalid with
    | some _ => [.Validate r]
    | none => [.Validate r, .Count r.rtype r.id]
  | .DeleteCmd rt id => [.Count rt id]
  | .PatchCmd rt id _ => [.Count rt id]

/-- The checks of a command list in sequence order, ended by the first failure: the
calls made and the failure, if any. -/
def checkAll (store : ResourceStore) : List Command → List Event × Option String
  | [] => ([], none)
  | c :: rest =>
    match c.checkFailure store with
    | some err => (c.checkEvents, some err)
    | none =>
      let out := checkAll store rest
      (c.checkEvents ++ out.1, out.2)

/-- The exit of a precondition loop that corresponds to a check result. -/
def LoopExit.ofFailure : Option String → LoopExit
  | none => .pass
  | some err => .fail err

/-! ## Library functions used by the codec -/

namespace GoMap

/-- The bindings that a `range` over the map visits: every key once, with its
current value. -/
def entries {V : Type} : GoMap V → List (String × V)
  | [] => []
  | (k, v) :: rest => (k, v) :: (entries rest).filter (fun kv => kv.1 != k)

end GoMap

/-- The value of a decimal digit character. -/
def digitVal (c : Char) : Option Nat :=
  if 48 ≤ c.toNat ∧ c.toNat ≤ 57 then some (c.toNat - 48) else none

/-- The digit loop of `strconv.Atoi`: `n = n*10 + int(ch - 48)`, failing on any other
character. -/
def parseDigits : List Char → Nat → Option Nat
  | [], acc => some acc
  | c :: cs, acc =>
    match digitVal c with
    | none => none
    | some d => parseDigits cs (acc * 10 + d)

/-- The function `strconv.Atoi` for a 64-bit `int`: an optional sign, then one or more
decimal digits, and a value that fits in `int`; `none` stands for a non-nil error. -/
def Atoi (s : String) : Option Int :=
  let signed : Bool × List Char :=
    match s.data with
    | '-' :: ds => (true, ds)
    | '+' :: ds => (false, ds)
    | ds => (false, ds)
  match signed.2 with
  | [] => none
  | ds =>
    match parseDigits ds 0 with
    | none => none
    | some n =>
      if signed.1 then (if n ≤ 2 ^ 63 then some (-(n : Int)) else none)
      else (if n < 2 ^ 63 then some (n : Int) else none)

/-- The digits of a natural number in base ten, most significant first; the first
argument bounds the number of digits. -/
def formatNatAux : Nat → Nat → List Char → List Char
  | 0, _, acc => acc
  | fuel + 1, n, acc =>
    if n < 10 then Char.ofNat (48 + n) :: acc
    else formatNatAux fuel (n / 10) (Char.ofNat (48 + n % 10) :: acc)

/-- The base-ten text of a natural number. -/
def formatNat (n : Nat) : List Char :=
  formatNatAux (n + 1) n []

/-- The text that `%v` gives for a Go `int`. -/
def formatInt : Int → String
  | .ofNat n => String.mk (formatNat n)
  | .negSucc n => String.mk ('-' :: formatNat (n + 1))

/-- The call `fmt.Sprintf("%v", v)` on a condition value. -/
def sprintV : CondValue → String
  | .str s => s
  | .int n => formatInt n
  | .other text => text

/-- The type `url.Values`, a `map[string][]string`. -/
abbrev Values := GoMap (List String)

/-- The method `Values.Get`: the first value under the key, or the empty string. -/
def Values.Get (v : Values) (key : String) : String :=
  match GoMap.get? v key with
  | some (x :: _) => x
  | _ => ""

/-- The method `Values.Set`: the key now has exactly this value. -/
def Values.Set (v : Values) (key : String) (value : String) : Values :=
  GoMap.set v key [value]

/-- The case folding of `encoding/json` for a key matched against an ASCII field
name: ASCII letters fold to lower case, and the two runes that Unicode folds to `s`
and `k` fold to them. -/
def foldRune (c : Char) : Char :=
  if c.toNat = 0x17F then 's' else if c.toNat = 0x212A then 'k' else c.toLower

/-- Decides whether a field name and a JSON key are equal under case folding. -/
def equalFold (name : String) (key : String) : Bool :=
  name.data.map foldRune == key.data.map foldRune

/-- The struct field that `json.Unmarshal` selects for a JSON key, given the JSON
names of the fields in declaration order: an exact match first, otherwise the first
field that matches under case folding. -/
def fieldFor (names : List String) (key : String) : Option String :=
  match names.find? (fun n => n == key) with
  | some n => some n
  | none => names.find? (fun n => equalFold n key)

/-- Unmarshal into a `string` field: a JSON string is stored, `null` is skipped,
anything else is a type error that leaves the field alone. -/
def storeString (cur : String) : Json → String × Option String
  | .str s => (s, none)
  | .null => (cur, none)
  | _ => (cur, some "json: cannot unmarshal value into Go value of type string")

/-- Unmarshal into a `[]json.RawMessage` field: every element of an array is kept
raw, `null` gives the nil slice. -/
def storeRawList (cur : List Json) : Json → List Json × Option String
  | .arr items => (items, none)
  | .null => ([], none)
  | _ => (cur, some "json: cannot unmarshal value into Go value of type []json.RawMessage")

/-- The walk of `json.Unmarshal` over the members of an object, in document order,
storing each member into the struct; the first type error is kept and the walk
goes on. -/
def unmarshalMembers {α : Type} (store : α → String → Json → α × Option String) :
    List (String × Json) → α → α × Option String
  | [], a => (a, none)
  | (k, v) :: rest, a =>
    let r := store a k v
    let out := unmarshalMembers store rest r.1
    (out.1, r.2 <|> out.2)

/-- The call `json.Unmarshal(data, &a)` for a struct `a`: an object is walked, `null`
changes nothing, any other document is a type error. -/
def unmarshalStruct {α : Type} (store : α → String → Json → α × Option String) (a : α) :
    Json → α × Option String
  | .obj members => unmarshalMembers store members a
  | .null => (a, none)
  | _ => (a, some "json: cannot unmarshal value into Go value of struct type")

/-! ## Wire codec (`protocol.go`) -/

/-- The body of an HTTP request: none at all (it reads as no bytes), a reader that
fails, bytes that are not JSON, or a JSON document. -/
inductive Body where
  | noBody
  | readError (err : String)
  | notJson (err : String)
  | json (doc : Json)

/-- The type `http.Request` as the codec uses it.  `Query` is the result of
`r.URL.Query()`. -/
structure Request where
  Method : String
  URL : String
  Query : Values
  Body : Body

/-- The struct `quark.EndPoint` as the codec uses it: the text returned by
`GenerateServiceUrl`, and the error, if any, that `url.Parse` reports for it.  The
text is taken to carry neither a query nor a fragment, so that `url.Parse` of the
text followed by `?` and an encoded query yields that query. -/
structure EndPoint where
  serviceUrl : String
  parseError : Option String

/-- The serializer of package `cement/serializer` as the codec uses it. -/
structure Serializer where
  DecodeType : String → Json → Except String Resource

/-- The struct `RestProtocol` (lines 18-21). -/
structure RestProtocol where
  serializer : Serializer
  endPoint : EndPoint

/-- The struct `taskInJson` (lines 23-27). -/
structure taskInJson where
  ResourceType : String
  User : String
  Attrs : List Json

/-- Stores one member of the envelope into a `taskInJson`; the JSON names come from
the struct tags `resource_type`, `zdnsuser` and `attrs`. -/
def taskInJson.store (tt : taskInJson) (key : String) (v : Json) :
    taskInJson × Option String :=
  match fieldFor ["resource_type", "zdnsuser", "attrs"] key with
  | none => (tt, none)
  | some name =>
    if name = "resource_type" then
      let r := storeString tt.ResourceType v
      ({ tt with ResourceType := r.1 }, r.2)
    else if name = "zdnsuser" then
      let r := storeString tt.User v
      ({ tt with User := r.1 }, r.2)
    else
      let r := storeRawList tt.Attrs v
      ({ tt with Attrs := r.1 }, r.2)

/-- The common head of the four body decoders: `ioutil.ReadAll(r.Body)`, then
`json.Unmarshal(body, &tt)` into a zero `taskInJson`. -/
def readEnvelope (r : Request) : Except String taskInJson :=
  match r.Body with
  | .readError err => .error ("http body reader error " ++ err)
  | .noBody => .error "unexpected end of JSON input"
  | .notJson err => .error err
  | .json doc =>
    match unmarshalStruct taskInJson.store ⟨"", "", []⟩ doc with
    | (_, some err) => .error err
    | (tt, none) => .ok tt

/-- The local variables of `decodeGetTask` that its loop updates. -/
structure GetVars where
  ResourceType : String
  User : String
  offset : Int
  limit : Int
  Conds : GoMap CondValue

/-- The loop of `decodeGetTask` over the keys of the query (lines 109-135). -/
def decodeGetLoop (queries : Values) : List String → GetVars → Except String GetVars
  | [], st => .ok st
  | k :: ks, st =>
    if k = "resource_type" then
      if queries.Get k = "" then .error "empty resource type"
      else decodeGetLoop queries ks { st with ResourceType := queries.Get k }
    else if k = "zdnsuser" then
      decodeGetLoop queries ks { st with User := queries.Get k }
    else if k = "offset" then
      match Atoi (queries.Get k) with
      | none => .error "offset isn't a valid integer"
      | some n => decodeGetLoop queries ks { st with offset := n }
    else if k = "limit" then
      match Atoi (queries.Get k) with
      | none => .error "limit isn't a valid integer"
      | some n => decodeGetLoop queries ks { st with limit := n }
    else if k ≠ "_" then
      decodeGetLoop queries ks { st with Conds := st.Conds.set k (.str (queries.Get k)) }
    else
      decodeGetLoop queries ks st

/-- The loop shared by `decodePostTask` (lines 160-167) and `decodePutTask` (lines
187-194): every raw entry is decoded by the serializer, the first error ends it. -/
def decodeResources (s : Serializer) (rt : String) : List Json → Except String (List Resource)
  | [] => .ok []
  | raw :: rest =>
    match s.DecodeType rt raw with
    | .error err => .error err
    | .ok res =>
      match decodeResources s rt rest with
      | .error err => .error err
      | .ok out => .ok (res :: out)

/-- The variable `patchCmd` of `decodePatchTask` (lines 213-216), declared once before
the loop.  Its map field holds a reference to a map object, or nil. -/
structure PatchVar where
  Id : String
  NewAttrs : Option Nat

/-- The memory that the loop of `decodePatchTask` works on: the map objects allocated
so far and the variable `patchCmd`. -/
structure PatchMem where
  maps : List (GoMap Json)
  var : PatchVar

/-- Unmarshal into a `map[string]interface{}` field: for an object a nil map is
allocated first, an existing map is used again with the bindings it holds, and every
member is stored; `null` sets the field to nil. -/
def storeMap (maps : List (GoMap Json)) (cur : Option Nat) :
    Json → (List (GoMap Json) × Option Nat) × Option String
  | .obj members =>
    let fill : GoMap Json → GoMap Json :=
      fun m => members.foldl (fun acc kv => GoMap.set acc kv.1 kv.2) m
    match cur with
    | some ref => ((List.modify fill ref maps, some ref), none)
    | none => ((maps ++ [fill []], some maps.length), none)
  | .null => ((maps, none), none)
  | _ => ((maps, cur), some "json: cannot unmarshal value into Go value of type map")

/-- Stores one member of an entry into `patchCmd`.  The struct tags of lines 214-215
are written without quotes, so `encoding/json` finds no tag and names the fields
`Id` and `NewAttrs`. -/
def PatchMem.store (m : PatchMem) (key : String) (v : Json) : PatchMem × Option String :=
  match fieldFor ["Id", "NewAttrs"] key with
  | none => (m, none)
  | some name =>
    if name = "Id" then
      let r := storeString m.var.Id v
      ({ m with var := { m.var with Id := r.1 } }, r.2)
    else
      let r := storeMap m.maps m.var.NewAttrs v
      (⟨r.1.1, { m.var with NewAttrs := r.1.2 }⟩, r.2)

/-- The loop of `decodePatchTask` (lines 218-224).  Each command takes the current
`Id` and the current map reference of `patchCmd`; the map objects are returned as
they stand when the loop ends. -/
def decodePatchLoop : List Json → PatchMem →
    Except String (List (String × Option Nat) × List (GoMap Json))
  | [], m => .ok ([], m.maps)
  | raw :: rest, m =>
    match unmarshalStruct PatchMem.store m raw with
    | (_, some err) => .error err
    | (m1, none) =>
      match decodePatchLoop rest m1 with
      | .error err => .error err
      | .ok out => .ok ((m1.var.Id, m1.var.NewAttrs) :: out.1, out.2)

/-- Stores one member of an entry into the struct `id` of `decodeDeleteTask` (lines
244-246), whose only field has the JSON name `id`. -/
def storeId (cur : String) (key : String) (v : Json) : String × Option String :=
  match fieldFor ["id"] key with
  | none => (cur, none)
  | some _ => storeString cur v

/-- The document `json.Marshal` gives for the struct `id` of `encodeDeleteTask`, given
the text that it writes for the id (see `GoString.text` for an id that is not valid
UTF-8). -/
def marshalId (id : String) : Json :=
  .obj [("id", .str id)]

/-- The document `json.Marshal` gives for a `map[string]interface{}`: `null` for a nil
map, otherwise an object with one member per key.  (Go writes the members sorted by
key; no reader in this package depends on their order.) -/
def marshalMap : Option (GoMap Json) → Json
  | none => .null
  | some m => .obj (GoMap.entries m)

/-- The document `json.Marshal` gives for the struct `patchcmd` of `encodePatchTask`
(lines 426-429): the first tag is well formed and names the field `id`, the second is
written without quotes and leaves the field under its Go name `NewAttrs`. -/
def marshalPatch (id : String) (attrs : Option (GoMap Json)) : Json :=
  .obj [("id", .str id), ("NewAttrs", marshalMap attrs)]

/-- The document `json.Marshal` gives for a `taskInJson`, given the texts that it
writes for the resource type and the user. -/
def taskInJson.marshal (tt : taskInJson) : Json :=
  .obj [("resource_type", .str tt.ResourceType), ("zdnsuser", .str tt.User),
    ("attrs", .arr tt.Attrs)]

/-- The result of `EncodeTask`: a request, an error, or a panic (a nil pointer left
by a failed type assertion is dereferenced). -/
inductive Encoded where
  | request (r : Request)
  | error (err : String)
  | panic

/-- The loop of `encodePostTask` (lines 324-330) and of `encodePutTask` (lines
355-361), which differ in the command type they assert: the resource type is
taken from a command while it is still empty, and every resource is marshalled. -/
def encodeResourceLoop (want : Command → Option Resource) :
    List Command → String → Option (String × List Json)
  | [], rt => some (rt, [])
  | c :: rest, rt =>
    match want c with
    | none => none
    | some res =>
      match encodeResourceLoop want rest (if rt = "" then res.rtype else rt) with
      | none => none
      | some out => some (out.1, res.json :: out.2)

/-- The loop of `encodeDeleteTask` (lines 386-396). -/
def encodeDeleteLoop : List Command → String → Option (String × List Json)
  | [], rt => some (rt, [])
  | .DeleteCmd crt id :: rest, rt =>
    match encodeDeleteLoop rest (if rt = "" then crt else rt) with
    | none => none
    | some out => some (out.1, marshalId id :: out.2)
  | _ :: _, _ => none

/-- The loop of `encodePatchTask` (lines 421-433). -/
def encodePatchLoop : List Command → String → Option (String × List Json)
  | [], rt => some (rt, [])
  | .PatchCmd crt id attrs :: rest, rt =>
    match encodePatchLoop rest (if rt = "" then crt else rt) with
    | none => none
    | some out => some (out.1, marshalPatch id attrs :: out.2)
  | _ :: _, _ => none

/-- The common tail of the four body encoders: the envelope is marshalled into the
body and the URL of the end point is parsed. -/
def bodyRequest (e : EndPoint) (method : String) (user : String)
    (loop : Option (String × List Json)) : Encoded :=
  match loop with
  | none => .panic
  | some out =>
    match e.parseError with
    | some err => .error err
    | none => .request ⟨method, e.serviceUrl, [], .json (taskInJson.marshal ⟨out.1, user, out.2⟩)⟩

/-- The resource of a `*PostCmd`; `none` when the type assertion fails. -/
def Command.postResource : Command → Option Resource
  | .PostCmd r => some r
  | _ => none

/-- The resource of a `*PutCmd`; `none` when the type assertion fails. -/
def Command.putResource : Command → Option Resource
  | .PutCmd r => some r
  | _ => none

namespace RestProtocol

/-- The method `decodeGetTask` (lines 103-143). -/
def decodeGetTask (r : Request) : Except String Task :=
  match decodeGetLoop r.Query (GoMap.keys r.Query) ⟨"", "", 0, 0, []⟩ with
  | .error err => .error err
  | .ok st =>
    let conds :=
      if st.limit > 0 ∧ st.offset ≥ 0 then
        (st.Conds.set "offset" (.int st.offset)).set "limit" (.int st.limit)
      else st.Conds
    .ok ⟨st.User, [.GetCmd st.ResourceType conds]⟩

/-- The method `decodePostTask` (lines 145-169). -/
def decodePostTask (p : RestProtocol) (r : Request) : Except String Task :=
  match readEnvelope r with
  | .error err => .error err
  | .ok tt =>
    match decodeResources p.serializer tt.ResourceType tt.Attrs with
    | .error err => .error err
    | .ok rs => .ok ⟨tt.User, rs.map .PostCmd⟩

/-- The method `decodePutTask` (lines 171-196). -/
def decodePutTask (p : RestProtocol) (r : Request) : Except String Task :=
  match readEnvelope r with
  | .error err => .error err
  | .ok tt =>
    match decodeResources p.serializer tt.ResourceType tt.Attrs with
    | .error err => .error err
    | .ok rs => .ok ⟨tt.User, rs.map .PutCmd⟩

/-- The method `decodePatchTask` (lines 198-226).  A command holds the map object
that `patchCmd` referred to when the command was appended. -/
def decodePatchTask (r : Request) : Except String Task :=
  match readEnvelope r with
  | .error err => .error err
  | .ok tt =>
    match decodePatchLoop tt.Attrs ⟨[], ⟨"", none⟩⟩ with
    | .error err => .error err
    | .ok out =>
      .ok ⟨tt.User, out.1.map (fun c =>
        .PatchCmd tt.ResourceType c.1 (c.2.map (fun ref => out.2.getD ref [])))⟩

/-- The method `decodeDeleteTask` (lines 228-254).  The struct `id` is declared
inside the loop and the error of `json.Unmarshal` is dropped. -/
def decodeDeleteTask (r : Request) : Except String Task :=
  match readEnvelope r with
  | .error err => .error err
  | .ok tt =>
    .ok ⟨tt.User, tt.Attrs.map (fun raw =>
      .DeleteCmd tt.ResourceType (unmarshalStruct storeId "" raw).1)⟩

/-- The method `DecodeTask` (lines 86-101). -/
def DecodeTask (p : RestProtocol) (r : Request) : Except String Task :=
  if r.Method = "GET" then decodeGetTask r
  else if r.Method = "POST" then decodePostTask p r
  else if r.Method = "PUT" then decodePutTask p r
  else if r.Method = "DELETE" then decodeDeleteTask r
  else if r.Method = "PATCH" then decodePatchTask r
  else .error ("unknown http method " ++ r.Method)

/-- The method `encodeGetTask` (lines 296-318). -/
def encodeGetTask (p : RestProtocol) (t : Task) : Encoded :=
  match t.Cmds with
  | [c] =>
    match c with
    | .GetCmd rt conds =>
      let uv := (GoMap.entries conds).foldl (fun uv kv => Values.Set uv kv.1 (sprintV kv.2))
        (Values.Set (Values.Set [] "resource_type" rt) "zdnsuser" t.User)
      match p.endPoint.parseError with
      | some err => .error err
      | none => .request ⟨"GET", p.endPoint.serviceUrl, uv, .noBody⟩
    | _ => .panic
  | _ => .error "get task doesn't support batch"

/-- The method `encodePostTask` (lines 320-349). -/
def encodePostTask (p : RestProtocol) (t : Task) : Encoded :=
  bodyRequest p.endPoint "POST" t.User (encodeResourceLoop Command.postResource t.Cmds "")

/-- The method `encodePutTask` (lines 351-380). -/
def encodePutTask (p : RestProtocol) (t : Task) : Encoded :=
  bodyRequest p.endPoint "PUT" t.User (encodeResourceLoop Command.putResource t.Cmds "")

/-- The method `encodeDeleteTask` (lines 382-415). -/
def encodeDeleteTask (p : RestProtocol) (t : Task) : Encoded :=
  bodyRequest p.endPoint "DELETE" t.User (encodeDeleteLoop t.Cmds "")

/-- The method `encodePatchTask` (lines 417-453). -/
def encodePatchTask (p : RestProtocol) (t : Task) : Encoded :=
  bodyRequest p.endPoint "PATCH" t.User (encodePatchLoop t.Cmds "")

/-- The method `EncodeTask` (lines 264-294). -/
def EncodeTask (p : RestProtocol) (t : Task) : Encoded :=
  match t.Cmds with
  | [] => .error "encode empty task"
  | .GetCmd _ _ :: _ => encodeGetTask p t
  | .PostCmd _ :: _ => encodePostTask p t
  | .PutCmd _ :: _ => encodePutTask p t
  | .DeleteCmd _ _ :: _ => encodeDeleteTask p t
  | .PatchCmd _ _ _ :: _ => encodePatchTask p t

/-- The composition the round-trip law speaks of: `DecodeTask` applied to the request
that `EncodeTask` produced; `none` when `EncodeTask` produced no request. -/
def roundTrip (p : RestProtocol) (t : Task) : Option (Except String Task) :=
  match EncodeTask p t with
  | .request r => some (DecodeTask p r)
  | _ => none

end RestProtocol

/-- The query keys that `decodeGetTask` does not turn into a condition. -/
def reservedKeys : List String :=
  ["resource_type", "zdnsuser", "offset", "limit", "_"]

/-- The value that the variable `offset` or `limit` of `decodeGetTask` holds after the
loop of a successful decode: zero when the query lacks the parameter, otherwise the
integer that its first value denotes. -/
def paramInt (q : Values) (name : String) : Int :=
  match GoMap.get? q name with
  | none => 0
  | some _ => (Atoi (q.Get name)).getD 0

/-- The strings that a DELETE entry binds to `id`, in document order: the values of
the members of an object whose key is `id`, exactly or up to case, and whose value
is a string.  An entry that is not an object binds none. -/
def idStrings : Json → List String
  | .obj members =>
    members.filterMap (fun kv =>
      match fieldFor ["id"] kv.1, kv.2 with
      | some _, .str s => some s
      | _, _ => none)
  | _ => []

/-- The id that the wire shape of a DELETE entry gives: the string bound to `id`, the
last one if the entry binds several, and the empty string if it binds none. -/
def entryId (entry : Json) : String :=
  (idStrings entry).getLast?.getD ""

/-- The kind of command that `DecodeTask` builds for an HTTP method. -/
def methodKind (method : String) : Option Kind :=
  if method = "GET" then some .Get
  else if method = "POST" then some .Post
  else if method = "PUT" then some .Put
  else if method = "DELETE" then some .Delete
  else if method = "PATCH" then some .Patch
  else none

/-! ## Decoding a result (`protocol.go`, lines 459-490) -/

/-- The type `http.Response` as the codec and the proxy use it; `Body` is `none` for a
nil body. -/
structure Response where
  StatusCode : Int
  Body : Option Body

/-- A shape supplied by the caller of `DecodeTaskResult` (the argument `success` or
`failure`): the error, if any, that `json.Unmarshal` reports when it stores a
document into it. -/
abbrev Shape := Json → Option String

/-- The struct `quark.TaskResult` as line 486 builds it; `Result` is the document now
held by the selected shape, or nil. -/
structure TaskResult where
  Code : Int
  Result : Option Json

namespace RestProtocol

/-- The method `DecodeTaskResult` (lines 459-490); `succeed` is the constant
`quark.Succeed`.  The outer `none` is the panic of the deferred `Close` on a nil
body. -/
def DecodeTaskResult (succeed : Int) (response : Response) (success : Option Shape)
    (failure : Option Shape) : Option (Except String TaskResult) :=
  match response.Body with
  | none => none
  | some (.readError err) => some (.error err)
  | some body =>
    match (if response.StatusCode = succeed then success else failure) with
    | none => some (.ok ⟨response.StatusCode, none⟩)
    | some shape =>
      match body with
      | .json doc =>
        match shape doc with
        | some err => some (.error err)
        | none => some (.ok ⟨response.StatusCode, some doc⟩)
      | .notJson err => some (.error err)
      | _ => some (.error "unexpected end of JSON input")

end RestProtocol

/-! ## Proxy (`proxy.go`) -/

/-- The interface `quark.Protocol` as the proxy uses it.  The calls of `EncodeTask` are
numbered from zero, since an implementation may answer a later call differently. -/
structure Protocol where
  EncodeTask : Nat → Task → Encoded
  DecodeTaskResult : Response → Option Shape → Option Shape →
    Option (Except String TaskResult)

/-- The client `rest.RestClient` of package `cement/rest` as the proxy uses it: the
error of `Connect` and of `ReConnect`, if any, and the response and error of the
calls of `Send`, numbered from zero. -/
structure RestClient where
  Connect : Option String
  Send : Nat → Request → Option Response × Option String
  ReConnect : Option String

/-- The protocol that `GetProxyOfService` hands to the proxy: a `RestProtocol`. -/
def RestProtocol.toProtocol (p : RestProtocol) (succeed : Int) : Protocol :=
  ⟨fun _ t => RestProtocol.EncodeTask p t, RestProtocol.DecodeTaskResult succeed⟩

/-- An observable call made by `RestProxy.HandleTask`. -/
inductive ProxyEvent where
  | EncodeTask (t : Task)
  | Connect
  | Send (req : Request)
  | ReConnect
  | DecodeTaskResult (response : Response)

/-- The outcome of one `RestProxy.HandleTask` call: the calls made, in order, and the
error returned; `some none` is the nil error and `none` a panic. -/
structure ProxyOutcome where
  trace : List ProxyEvent
  result : Option (Option String)

/-- The test of lines 42 and 54, read the other way round: the response when it is
neither nil nor without a body. -/
def usableResponse : Option Response → Option Response
  | some response => if response.Body.isSome then some response else none
  | none => none

/-- Lines 59-64: the response is decoded and the error of the decoding, if any, is
returned with its context. -/
def decodeTail (proto : Protocol) (trace : List ProxyEvent) (response : Response)
    (succeed : Option Shape) (failure : Option Shape) : ProxyOutcome :=
  match proto.DecodeTaskResult response succeed failure with
  | none => ⟨trace ++ [.DecodeTaskResult response], none⟩
  | some (.error err) =>
    ⟨trace ++ [.DecodeTaskResult response], some (some ("decode task result failed:" ++ err))⟩
  | some (.ok _) => ⟨trace ++ [.DecodeTaskResult response], some none⟩

namespace RestProxy

/-- The method `RestProxy.HandleTask` (lines 29-65).  The error of the first `Send`
is dropped (line 41); after the resend the function returns the error of that
`Send` as it is (line 55). -/
def HandleTask (proto : Protocol) (client : RestClient) (t : Task)
    (succeed : Option Shape) (failure : Option Shape) : ProxyOutcome :=
  match proto.EncodeTask 0 t with
  | .panic => ⟨[.EncodeTask t], none⟩
  | .error err => ⟨[.EncodeTask t], some (some ("encode task failed:" ++ err))⟩
  | .request req =>
    match client.Connect with
    | some err => ⟨[.EncodeTask t, .Connect], some (some err)⟩
    | none =>
      match usableResponse (client.Send 0 req).1 with
      | some response =>
        decodeTail proto [.EncodeTask t, .Connect, .Send req] response succeed failure
      | none =>
        match client.ReConnect with
        | some err => ⟨[.EncodeTask t, .Connect, .Send req, .ReConnect], some (some err)⟩
        | none =>
          match proto.EncodeTask 1 t with
          | .panic =>
            ⟨[.EncodeTask t, .Connect, .Send req, .ReConnect, .EncodeTask t], none⟩
          | .error err =>
            ⟨[.EncodeTask t, .Connect, .Send req, .ReConnect, .EncodeTask t],
              some (some err)⟩
          | .request req2 =>
            match usableResponse (client.Send 1 req2).1 with
            | some response =>
              decodeTail proto
                [.EncodeTask t, .Connect, .Send req, .ReConnect, .EncodeTask t, .Send req2]
                response succeed failure
            | none =>
              ⟨[.EncodeTask t, .Connect, .Send req, .ReConnect, .EncodeTask t, .Send req2],
                some (client.Send 1 req2).2⟩

end RestProxy

/-- The request of a `Send` event. -/
def ProxyEvent.sendRequest : ProxyEvent → Option Request
  | .Send req => some req
  | _ => none

/-- The event is a call of `Send`. -/
def ProxyEvent.isSend : ProxyEvent → Bool
  | .Send _ => true
  | _ => false

/-- The event is a call of `ReConnect`. -/
def ProxyEvent.isReConnect : ProxyEvent → Bool
  | .ReConnect => true
  | _ => false

/-- The event is a call of `DecodeTaskResult`. -/
def ProxyEvent.isDecode : ProxyEvent → Bool
  | .DecodeTaskResult _ => true
  | _ => false

/-! ## Go strings as bytes

A Go `string` is a sequence of bytes and need not be valid UTF-8.  The strings of the
command model above are texts, which is what every string is once it has passed
through `encoding/json`: `json.Marshal` writes U+FFFD for every byte of a string at
which no valid encoding starts.  The definitions below give the strings of a Delete
task as bytes and take `encodeDeleteTask` over them. -/

/-- A byte. -/
abbrev Byte := Fin 256

/-- A Go `string`: a sequence of bytes, which need not be valid UTF-8. -/
abbrev GoString := List Byte

/-- The byte with the given value. -/
def Byte.ofNat (n : Nat) : Byte :=
  ⟨n % 256, Nat.mod_lt _ (by decide)⟩

/-- The function `utf8.EncodeRune` on the value of a rune: one to four bytes. -/
def encodeRune (n : Nat) : List Nat :=
  if n < 0x80 then [n]
  else if n < 0x800 then [0xC0 + n / 64, 0x80 + n % 64]
  else if n < 0x10000 then [0xE0 + n / 4096, 0x80 + n / 64 % 64, 0x80 + n % 64]
  else [0xF0 + n / 262144, 0x80 + n / 4096 % 64, 0x80 + n / 64 % 64, 0x80 + n % 64]

/-- The range that `utf8.DecodeRune` accepts for the second byte after a first byte
(the table `acceptRanges`). -/
def acceptRange (b0 : Nat) : Nat × Nat :=
  if b0 = 0xE0 then (0xA0, 0xBF)
  else if b0 = 0xED then (0x80, 0x9F)
  else if b0 = 0xF0 then (0x90, 0xBF)
  else if b0 = 0xF4 then (0x80, 0x8F)
  else (0x80, 0xBF)

/-- The function `utf8.DecodeRune` on byte values: the rune encoded at the head and the
bytes after it; `none` stands for the result `RuneError` of width one, which the
function returns when no valid encoding starts at the head. -/
def decodeRune : List Nat → Option (Nat × List Nat)
  | [] => none
  | b0 :: rest =>
    if b0 < 0x80 then some (b0, rest)
    else if b0 < 0xC2 then none
    else if b0 < 0xE0 then
      match rest with
      | b1 :: r1 =>
        if 0x80 ≤ b1 ∧ b1 ≤ 0xBF then some ((b0 - 0xC0) * 64 + (b1 - 0x80), r1) else none
      | _ => none
    else if b0 < 0xF0 then
      match rest with
      | b1 :: b2 :: r2 =>
        if (acceptRange b0).1 ≤ b1 ∧ b1 ≤ (acceptRange b0).2 ∧ 0x80 ≤ b2 ∧ b2 ≤ 0xBF then
          some ((b0 - 0xE0) * 4096 + (b1 - 0x80) * 64 + (b2 - 0x80), r2)
        else none
      | _ => none
    else if b0 < 0xF5 then
      match rest with
      | b1 :: b2 :: b3 :: r3 =>
        if (acceptRange b0).1 ≤ b1 ∧ b1 ≤ (acceptRange b0).2 ∧ 0x80 ≤ b2 ∧ b2 ≤ 0xBF ∧
            0x80 ≤ b3 ∧ b3 ≤ 0xBF then
          some ((b0 - 0xF0) * 262144 + (b1 - 0x80) * 4096 + (b2 - 0x80) * 64 + (b3 - 0x80), r3)
        else none
      | _ => none
    else none

/-- The runes that the string encoder of `json.Marshal` writes for a sequence of byte
values: the rune of every valid encoding, and U+FFFD for every byte at which no
valid encoding starts.  The first argument bounds the number of runes. -/
def readRunes : Nat → List Nat → List Char
  | 0, _ => []
  | _ + 1, [] => []
  | fuel + 1, b0 :: rest =>
    match decodeRune (b0 :: rest) with
    | some (r, after) => Char.ofNat r :: readRunes fuel after
    | none => Char.ofNat 0xFFFD :: readRunes fuel rest

/-- The Go string that holds a text: its UTF-8 encoding. -/
def GoString.ofText (s : String) : GoString :=
  (s.data.flatMap (fun c => encodeRune c.toNat)).map Byte.ofNat

/-- The text that `json.Marshal` writes for a Go string, and that `json.Unmarshal`
reads back: invalid bytes are replaced by U+FFFD. -/
def GoString.text (g : GoString) : String :=
  String.mk (readRunes g.length (g.map Fin.val))

namespace Bytes

/-- The struct `DeleteCmd` (lines 38-41) with its strings as Go strings. -/
structure DeleteCmd where
  ResourceType : GoString
  Id : GoString

/-- A `quark.Task` made of Delete commands, with its strings as Go strings. -/
structure DeleteTask where
  User : GoString
  Cmds : List DeleteCmd

/-- The loop of `encodeDeleteTask` (lines 386-396): the resource type is taken from a
command while it is still empty, and `json.Marshal(id)` writes the text of the id. -/
def encodeDeleteLoop : List DeleteCmd → GoString → GoString × List Json
  | [], rt => (rt, [])
  | c :: rest, rt =>
    let out := encodeDeleteLoop rest (if rt = [] then c.ResourceType else rt)
    (out.1, marshalId c.Id.text :: out.2)

/-- The method `encodeDeleteTask` (lines 382-415): `json.Marshal(tt)` writes the texts
of the user and of the resource type. -/
def encodeDeleteTask (p : RestProtocol) (t : DeleteTask) : Encoded :=
  let out := encodeDeleteLoop t.Cmds []
  bodyRequest p.endPoint "DELETE" t.User.text (some (out.1.text, out.2))

/-- The method `EncodeTask` (lines 264-294) on a task of Delete commands. -/
def EncodeTask (p : RestProtocol) (t : DeleteTask) : Encoded :=
  match t.Cmds with
  | [] => .error "encode empty task"
  | _ :: _ => encodeDeleteTask p t

/-- The round trip of a task of Delete commands: `DecodeTask` applied to the request
that `EncodeTask` produced; `none` when `EncodeTask` produced no request. -/
def roundTrip (p : RestProtocol) (t : DeleteTask) : Option (Except String Task) :=
  match EncodeTask p t with
  | .request r => some (RestProtocol.DecodeTask p r)
  | _ => none

/-- The Delete commands of a decoded task, with their strings as Go strings. -/
def ofCmds : List Command → List DeleteCmd
  | [] => []
  | .DeleteCmd rt id :: rest => ⟨GoString.ofText rt, GoString.ofText id⟩ :: ofCmds rest
  | _ :: rest => ofCmds rest

/-- A decoded task of Delete commands, with its strings as Go strings. -/
def ofTask (t : Task) : DeleteTask :=
  ⟨GoString.ofText t.User, ofCmds t.Cmds⟩

end Bytes

/-- The Go string is valid UTF-8: it is the encoding of a text. -/
def GoString.valid (g : GoString) : Prop :=
  ∃ s : String, g = GoString.ofText s

/-! ## Sample values -/

/-- A protocol whose end point has a well-formed URL and whose serializer knows no
resource type. -/
def sampleProtocol : RestProtocol :=
  ⟨⟨fun _ _ => .error "unregistered type"⟩, ⟨"http://127.0.0.1:8080/hosts", none⟩⟩

/-- A service whose results are texts. -/
def sampleService : RestService String :=
  { HandleGet := fun _ => "get done"
    HandlePost := fun _ => "post done"
    HandlePut := fun _ => "put done"
    HandleDelete := fun _ => "delete done"
    HandlePatch := fun _ => "patch done"
    Failed := fun _ err => "failed: " ++ err }

/-- A store that holds a single resource, the `Host` with id `1`. -/
def sampleStore : ResourceStore :=
  ⟨fun rt id => if rt = "Host" ∧ id = "1" then .ok 1 else .ok 0⟩

/-- A resource whose `Validate` reports the given error, if any. -/
def sampleHost (id : String) (invalid : Option String) : Resource :=
  ⟨"Host", id, invalid, .obj [("id", .str id)]⟩

/-- A client whose first `Send` fails with an error and whose second `Send` returns a
response without a body and no error. -/
def sampleClient : RestClient :=
  { Connect := none
    Send := fun k _ =>
      if k = 0 then (none, some "connection reset") else (some ⟨200, none⟩, none)
    ReConnect := none }

/-- A client whose every `Send` returns a response with status 200 and the given
document as its body, and no error. -/
def sampleClientOk (doc : Json) : RestClient :=
  { Connect := none
    Send := fun _ _ => (some ⟨200, some (.json doc)⟩, none)
    ReConnect := none }

open RestProtocol

/-! ## Theorems: service dispatcher -/

theorem postLoop_trace (cmds : List Command) :
    ∀ e ∈ (postLoop cmds).1, e.isStoreCall = false ∧ e.isHandler = false := by
  induction cmds with
  | nil => simp [postLoop]
  | cons c rest ih =>
    cases c <;> simp [postLoop]
    rename_i r
    cases hr : r.invalid <;> simp [Event.isStoreCall, Event.isHandler]
    exact ih

theorem postLoop_first_invalid (cmds : List Command) (hpost : ∀ c ∈ cmds, c.isPost = true)
    (hbad : ∃ c ∈ cmds, c.validationError ≠ none) :
    ∃ err, cmds.findSome? Command.validationError = some err ∧
      (postLoop cmds).2 = .fail err := by
  induction cmds with
  | nil => simp at hbad
  | cons c rest ih =>
    cases c <;> simp [Command.isPost] at hpost
    rename_i r
    cases hr : r.invalid with
    | some err => exact ⟨err, by simp [List.findSome?, Command.validationError, hr, postLoop]⟩
    | none =>
      have hbad2 : ∃ c ∈ rest, c.validationError ≠ none := by
        obtain ⟨c, hc, hne⟩ := hbad
        rcases List.mem_cons.mp hc with h | h
        · subst h
          simp [Command.validationError, hr] at hne
        · exact ⟨c, h, hne⟩
      obtain ⟨err, h1, h2⟩ := ih hpost hbad2
      exact ⟨err, by simp [List.findSome?, Command.validationError, hr, h1], by
        simp [postLoop, hr, h2]⟩

theorem deleteLoop_trace (store : ResourceStore) (cmds : List Command) :
    ∀ e ∈ (deleteLoop store cmds).1, e.isHandler = false := by
  induction cmds with
  | nil => simp [deleteLoop]
  | cons c rest ih =>
    cases c <;> simp [deleteLoop]
    rename_i rt id
    cases hc : store.Count rt id with
    | error err => simp [Event.isHandler]
    | ok count =>
      by_cases h0 : count = 0
      · simp [h0, Event.isHandler]
      · simp [h0, Event.isHandler]
        exact ih

theorem patchLoop_trace (store : ResourceStore) (cmds : List Command) :
    ∀ e ∈ (patchLoop store cmds).1, e.isHandler = false := by
  induction cmds with
  | nil => simp [patchLoop]
  | cons c rest ih =>
    cases c <;> simp [patchLoop]
    rename_i rt id attrs
    cases hc : store.Count rt id with
    | error err => simp [Event.isHandler]
    | ok count =>
      by_cases h0 : count = 0
      · simp [h0, Event.isHandler]
      · simp [h0, Event.isHandler]
        exact ih

theorem putLoop_trace (store : ResourceStore) (cmds : List Command) :
    ∀ e ∈ (putLoop store cmds).1, e.isHandler = false := by
  induction cmds with
  | nil => simp [putLoop]
  | cons c rest ih =>
    cases c <;> simp [putLoop]
    rename_i r
    cases hr : r.invalid with
    | some err => simp [Event.isHandler]
    | none =>
      cases hc : store.Count r.rtype r.id with
      | error err => simp [Event.isHandler]
      | ok count =>
        by_cases h0 : count = 0
        · simp [h0, Event.isHandler]
        · simp [h0, Event.isHandler]
          exact ih

theorem deleteLoop_zero (store : ResourceStore) (cmds : List Command)
    (hkind : ∀ c ∈ cmds, c.isDelete = true) (hzero : ∃ c ∈ cmds, c.countIsZero store) :
    ∃ err, (deleteLoop store cmds).2 = .fail err := by
  induction cmds with
  | nil => simp at hzero
  | cons c rest ih =>
    cases c <;> simp [Command.isDelete] at hkind
    rename_i rt id
    cases hc : store.Count rt id with
    | error err => simp [deleteLoop, hc]
    | ok count =>
      by_cases h0 : count = 0
      · simp [deleteLoop, hc, h0]
      · have hz : ∃ c ∈ rest, c.countIsZero store := by
          obtain ⟨c, hmem, hcz⟩ := hzero
          rcases List.mem_cons.mp hmem with h | h
          · subst h
            obtain ⟨key, hk, hk0⟩ := hcz
            simp [Command.lookupKey] at hk
            subst hk
            simp [hc] at hk0
            exact absurd hk0 h0
          · exact ⟨c, h, hcz⟩
        obtain ⟨err, he⟩ := ih hkind hz
        exact ⟨err, by simp [deleteLoop, hc, h0, he]⟩

theorem patchLoop_zero (store : ResourceStore) (cmds : List Command)
    (hkind : ∀ c ∈ cmds, c.isPatch = true) (hzero : ∃ c ∈ cmds, c.countIsZero store) :
    ∃ err, (patchLoop store cmds).2 = .fail err := by
  induction cmds with
  | nil => simp at hzero
  | cons c rest ih =>
    cases c <;> simp [Command.isPatch] at hkind
    rename_i rt id attrs
    cases hc : store.Count rt id with
    | error err => simp [patchLoop, hc]
    | ok count =>
      by_cases h0 : count = 0
      · simp [patchLoop, hc, h0]
      · have hz : ∃ c ∈ rest, c.countIsZero store := by
          obtain ⟨c, hmem, hcz⟩ := hzero
          rcases List.mem_cons.mp hmem with h | h
          · subst h
            obtain ⟨key, hk, hk0⟩ := hcz
            simp [Command.lookupKey] at hk
            subst hk
            simp [hc] at hk0
            exact absurd hk0 h0
          · exact ⟨c, h, hcz⟩
        obtain ⟨err, he⟩ := ih hkind hz
        exact ⟨err, by simp [patchLoop, hc, h0, he]⟩

theorem putLoop_zero (store : ResourceStore) (cmds : List Command)
    (hkind : ∀ c ∈ cmds, c.isPut = true) (hzero : ∃ c ∈ cmds, c.countIsZero store) :
    ∃ err, (putLoop store cmds).2 = .fail err := by
  induction cmds with
  | nil => simp at hzero
  | cons c rest ih =>
    cases c <;> simp [Command.isPut] at hkind
    rename_i r
    cases hr : r.invalid with
    | some err => simp [putLoop, hr]
    | none =>
      cases hc : store.Count r.rtype r.id with
      | error err => simp [putLoop, hr, hc]
      | ok count =>
        by_cases h0 : count = 0
        · simp [putLoop, hr, hc, h0]
        · have hz : ∃ c ∈ rest, c.countIsZero store := by
            obtain ⟨c, hmem, hcz⟩ := hzero
            rcases List.mem_cons.mp hmem with h | h
            · subst h
              obtain ⟨key, hk, hk0⟩ := hcz
              simp [Command.lookupKey] at hk
              subst hk
              simp [hc] at hk0
              exact absurd hk0 h0
            · exact ⟨c, h, hcz⟩
          obtain ⟨err, he⟩ := ih hkind hz
          exact ⟨err, by simp [putLoop, hr, hc, h0, he]⟩

theorem guarded_fail {R : Type} (svc : RestService R) (t : Task)
    (loop : List Event × LoopExit) (ev : Event) (handler : Task → R) (err : String)
    (hexit : loop.2 = .fail err) (htrace : ∀ e ∈ loop.1, e.isHandler = false) :
    (guarded svc t loop ev handler).result = some (svc.Failed t err) ∧
      ∀ e ∈ (guarded svc t loop ev handler).trace, e.isHandler = false := by
  unfold guarded
  rw [hexit]
  refine ⟨rfl, ?_⟩
  intro e he
  simp at he
  rcases he with h | h | h
  · subst h; rfl
  · exact htrace e h
  · subst h; rfl

/-- C1: a non-empty task of Put, of Delete or of Patch commands in which the store
counts zero resources for the key of at least one command makes `HandleTask` return
a result built by `t.Failed`, and the call invokes no handler (in particular none of
`HandlePut`, `HandleDelete`, `HandlePatch`). -/
theorem HandleTask_unknown_resource_fails {R : Type} (svc : RestService R)
    (store : ResourceStore) (t : Task)
    (hkind : (∀ c ∈ t.Cmds, c.isPut = true) ∨ (∀ c ∈ t.Cmds, c.isDelete = true) ∨
      (∀ c ∈ t.Cmds, c.isPatch = true))
    (hzero : ∃ c ∈ t.Cmds, c.countIsZero store) :
    (∃ err, (restServiceAdaptor.HandleTask svc store t).result = some (svc.Failed t err)) ∧
      ∀ e ∈ (restServiceAdaptor.HandleTask svc store t).trace, e.isHandler = false := by
  obtain ⟨user, cmds⟩ := t
  cases cmds with
  | nil => simp at hzero
  | cons c rest =>
    rcases hkind with hk | hk | hk
    · obtain ⟨err, he⟩ := putLoop_zero store (c :: rest) hk hzero
      have hc := hk c (List.mem_cons_self _ _)
      cases c <;> simp [Command.isPut] at hc
      rename_i r
      have h := guarded_fail svc ⟨user, Command.PutCmd r :: rest⟩
        (putLoop store (Command.PutCmd r :: rest)) .HandlePut svc.HandlePut err he
        (putLoop_trace store _)
      exact ⟨⟨err, h.1⟩, h.2⟩
    · obtain ⟨err, he⟩ := deleteLoop_zero store (c :: rest) hk hzero
      have hc := hk c (List.mem_cons_self _ _)
      cases c <;> simp [Command.isDelete] at hc
      rename_i rt id
      have h := guarded_fail svc ⟨user, Command.DeleteCmd rt id :: rest⟩
        (deleteLoop store (Command.DeleteCmd rt id :: rest)) .HandleDelete svc.HandleDelete err he
        (deleteLoop_trace store _)
      exact ⟨⟨err, h.1⟩, h.2⟩
    · obtain ⟨err, he⟩ := patchLoop_zero store (c :: rest) hk hzero
      have hc := hk c (List.mem_cons_self _ _)
      cases c <;> simp [Command.isPatch] at hc
      rename_i rt id attrs
      have h := guarded_fail svc ⟨user, Command.PatchCmd rt id attrs :: rest⟩
        (patchLoop store (Command.PatchCmd rt id attrs :: rest)) .HandlePatch svc.HandlePatch err he
        (patchLoop_trace store _)
      exact ⟨⟨err, h.1⟩, h.2⟩

/-- C2: a non-empty task of Post commands with at least one resource that fails
`Validate` makes `HandleTask` return `t.Failed` of the validation error of the first
invalid resource in list order; the call makes no store call (no `Begin`, `Count`
or `Commit`) and invokes no handler, wherever the invalid resource stands. -/
theorem HandleTask_post_invalid_fails {R : Type} (svc : RestService R)
    (store : ResourceStore) (t : Task)
    (hpost : ∀ c ∈ t.Cmds, c.isPost = true)
    (hbad : ∃ c ∈ t.Cmds, c.validationError ≠ none) :
    ∃ err, t.Cmds.findSome? Command.validationError = some err ∧
      (restServiceAdaptor.HandleTask svc store t).result = some (svc.Failed t err) ∧
      ∀ e ∈ (restServiceAdaptor.HandleTask svc store t).trace,
        e.isStoreCall = false ∧ e.isHandler = false := by
  obtain ⟨user, cmds⟩ := t
  obtain ⟨err, h1, h2⟩ := postLoop_first_invalid cmds hpost hbad
  refine ⟨err, h1, ?_⟩
  cases cmds with
  | nil => simp at hbad
  | cons c rest =>
    have hc := hpost c (List.mem_cons_self _ _)
    cases c <;> simp [Command.isPost] at hc
    simp only [restServiceAdaptor.HandleTask, h2]
    exact ⟨trivial, postLoop_trace _⟩

/-- Witness of C1: deleting the unknown `Host` 42 from the sample store. -/
theorem HandleTask_unknown_resource_fails_witness :
    (∃ err, (restServiceAdaptor.HandleTask sampleService sampleStore
        ⟨"alice", [.DeleteCmd "Host" "1", .DeleteCmd "Host" "42"]⟩).result =
          some (sampleService.Failed ⟨"alice", [.DeleteCmd "Host" "1", .DeleteCmd "Host" "42"]⟩
            err)) ∧
      ∀ e ∈ (restServiceAdaptor.HandleTask sampleService sampleStore
        ⟨"alice", [.DeleteCmd "Host" "1", .DeleteCmd "Host" "42"]⟩).trace,
          e.isHandler = false :=
  HandleTask_unknown_resource_fails sampleService sampleStore
    ⟨"alice", [.DeleteCmd "Host" "1", .DeleteCmd "Host" "42"]⟩
    (Or.inr (Or.inl (by simp [Command.isDelete])))
    ⟨.DeleteCmd "Host" "42", by simp, ("Host", "42"), rfl, rfl⟩

/-- Witness of C2: the second of three posted resources is invalid. -/
theorem HandleTask_post_invalid_fails_witness :
    ∃ err, List.findSome? Command.validationError
        [.PostCmd (sampleHost "1" none), .PostCmd (sampleHost "2" (some "name is empty")),
          .PostCmd (sampleHost "3" (some "ip is empty"))] = some err ∧
      (restServiceAdaptor.HandleTask sampleService sampleStore
        ⟨"alice", [.PostCmd (sampleHost "1" none),
          .PostCmd (sampleHost "2" (some "name is empty")),
          .PostCmd (sampleHost "3" (some "ip is empty"))]⟩).result =
        some (sampleService.Failed ⟨"alice", [.PostCmd (sampleHost "1" none),
          .PostCmd (sampleHost "2" (some "name is empty")),
          .PostCmd (sampleHost "3" (some "ip is empty"))]⟩ err) ∧
      ∀ e ∈ (restServiceAdaptor.HandleTask sampleService sampleStore
        ⟨"alice", [.PostCmd (sampleHost "1" none),
          .PostCmd (sampleHost "2" (some "name is empty")),
          .PostCmd (sampleHost "3" (some "ip is empty"))]⟩).trace,
        e.isStoreCall = false ∧ e.isHandler = false :=
  HandleTask_post_invalid_fails sampleService sampleStore
    ⟨"alice", [.PostCmd (sampleHost "1" none), .PostCmd (sampleHost "2" (some "name is empty")),
      .PostCmd (sampleHost "3" (some "ip is empty"))]⟩
    (by simp [Command.isPost])
    ⟨.PostCmd (sampleHost "2" (some "name is empty")), by simp,
      by simp [Command.validationError, sampleHost]⟩

/-! ## Theorems: wire codec, body methods -/

theorem readEnvelope_marshal (method url : String) (q : Values) (tt : taskInJson) :
    readEnvelope ⟨method, url, q, .json tt.marshal⟩ = .ok tt := by
  rfl

theorem unmarshal_marshalId (id : String) :
    (unmarshalStruct storeId "" (marshalId id)).1 = id := by
  rfl

theorem encodeDeleteLoop_same (rt : String) (ids : List String) :
    ∀ r0, (r0 = "" ∨ r0 = rt) →
      encodeDeleteLoop (ids.map (Command.DeleteCmd rt)) r0 =
        some (if ids = [] then r0 else rt, ids.map marshalId) := by
  induction ids with
  | nil => intro r0 _; rfl
  | cons id rest ih =>
    intro r0 h0
    have hr : (if r0 = "" then rt else r0) = rt := by
      rcases h0 with h | h
      · simp [h]
      · subst h; simp
    simp only [List.map_cons, encodeDeleteLoop, hr]
    rw [ih rt (Or.inr rfl)]
    simp

/-- C3, evaluated at a task of two Patch commands with different attributes: the
request that `EncodeTask` builds decodes to two commands that both hold the
attributes of both, because `decodePatchTask` unmarshals every entry into the same
variable `patchCmd` and `json.Unmarshal` fills the map it finds there. -/
theorem patch_round_trip_merges_attrs :
    roundTrip sampleProtocol ⟨"alice", [.PatchCmd "Host" "1" (some [("name", .str "web1")]),
        .PatchCmd "Host" "2" (some [("port", .num 80)])]⟩ =
      some (.ok ⟨"alice",
        [.PatchCmd "Host" "1" (some [("port", .num 80), ("name", .str "web1")]),
          .PatchCmd "Host" "2" (some [("port", .num 80), ("name", .str "web1")])]⟩) := by
  rfl

/-- The round trip of a Delete task whose strings are texts, that is, valid UTF-8: for
one or more Delete commands that all name the resource type `rt`, and an end point
whose URL parses, `DecodeTask` applied to the request built by `EncodeTask` returns
a task with the same user and the same Delete commands, in the same order. -/
theorem delete_round_trip (p : RestProtocol) (user rt : String) (ids : List String)
    (hne : ids ≠ []) (hurl : p.endPoint.parseError = none) :
    roundTrip p ⟨user, ids.map (Command.DeleteCmd rt)⟩ =
      some (.ok ⟨user, ids.map (Command.DeleteCmd rt)⟩) := by
  cases ids with
  | nil => exact absurd rfl hne
  | cons id rest =>
    have hloop := encodeDeleteLoop_same rt (id :: rest) "" (Or.inl rfl)
    simp only [List.map_cons] at hloop
    simp only [roundTrip, EncodeTask, encodeDeleteTask, List.map_cons, hloop, bodyRequest, hurl]
    simp [DecodeTask, decodeDeleteTask, readEnvelope_marshal, unmarshal_marshalId]

/-- An instance of the round trip over texts: two Delete commands on `Host`. -/
theorem delete_round_trip_witness :
    roundTrip sampleProtocol ⟨"alice", ["42", "7"].map (Command.DeleteCmd "Host")⟩ =
      some (.ok ⟨"alice", ["42", "7"].map (Command.DeleteCmd "Host")⟩) :=
  delete_round_trip sampleProtocol "alice" "Host" ["42", "7"] (by simp) rfl

/-- A PATCH envelope with one entry of the documented shape, an object with the
members `id` and `new_attrs`, decodes to a Patch command whose `NewAttrs` is nil:
no field of `patchCmd` answers to the key `new_attrs`. -/
theorem decodePatch_documented_shape (p : RestProtocol) (url : String) (q : Values)
    (rt user i : String) (m : List (String × Json)) :
    DecodeTask p ⟨"PATCH", url, q,
      .json (.obj [("resource_type", .str rt), ("zdnsuser", .str user),
        ("attrs", .arr [.obj [("id", .str i), ("new_attrs", .obj m)]])])⟩ =
      .ok ⟨user, [.PatchCmd rt i none]⟩ := by
  rfl

/-- C6, evaluated at the body
`{"resource_type":"Host","zdnsuser":"alice","attrs":[{"id":"42","new_attrs":{"name":"web2"}}]}`:
the decode succeeds with the right resource type and id, but `NewAttrs` is nil
instead of the mapping under `new_attrs`. -/
theorem decodePatch_drops_new_attrs :
    DecodeTask sampleProtocol ⟨"PATCH", "http://127.0.0.1:8080/hosts", [],
      .json (.obj [("resource_type", .str "Host"), ("zdnsuser", .str "alice"),
        ("attrs", .arr [.obj [("id", .str "42"),
          ("new_attrs", .obj [("name", .str "web2")])]])])⟩ =
      .ok ⟨"alice", [.PatchCmd "Host" "42" none]⟩ :=
  decodePatch_documented_shape sampleProtocol _ _ _ _ _ _

/-! ## Theorems: wire codec, GET -/

/-- C8, evaluated at the query `zdnsuser=alice`, which has no `resource_type`:
`DecodeTask` succeeds and returns a Get command with an empty resource type. -/
theorem decodeGet_without_resource_type :
    DecodeTask sampleProtocol
      ⟨"GET", "http://127.0.0.1:8080/hosts", [("zdnsuser", ["alice"])], .noBody⟩ =
      .ok ⟨"alice", [.GetCmd "" []]⟩ := by
  rfl

/-- The half of C8 that the code keeps: a `resource_type` parameter with an empty
value makes the decode fail. -/
theorem decodeGet_empty_resource_type (p : RestProtocol) (url : String) (body : Body)
    (others : Values) :
    DecodeTask p ⟨"GET", url, ("resource_type", [""]) :: others, body⟩ =
      .error "empty resource type" := by
  rfl

/-- C9: `EncodeTask` of a task without commands is the error `encode empty task`,
whatever the user. -/
theorem EncodeTask_empty (p : RestProtocol) (user : String) :
    EncodeTask p ⟨user, []⟩ = .error "encode empty task" := by
  rfl

/-- C10: `EncodeTask` of a task whose first command is a Get command and which holds
two or more commands returns the error of `encodeGetTask` and no request; hence a
task that starts with a Get command yields a request only when it holds exactly one
command. -/
theorem EncodeTask_get_batch (p : RestProtocol) (user rt : String) (conds : GoMap CondValue)
    (c : Command) (more : List Command) :
    EncodeTask p ⟨user, .GetCmd rt conds :: c :: more⟩ =
      .error "get task doesn't support batch" := by
  rfl

/-! ## Theorems: Go maps -/

theorem lookup_filter_ne {V : Type} (k k0 : String) (hne : k ≠ k0) (l : List (String × V)) :
    List.lookup k (l.filter (fun kv => kv.1 != k0)) = List.lookup k l := by
  induction l with
  | nil => rfl
  | cons a rest ih =>
    obtain ⟨ka, va⟩ := a
    by_cases h : ka = k0
    · subst h
      have hk : (k == ka) = false := by simpa using hne
      simp [List.filter, List.lookup, hk, ih]
    · have hk : (ka != k0) = true := by simpa using h
      simp only [List.filter, hk, List.lookup]
      rw [ih]

theorem entries_lookup {V : Type} (m : GoMap V) (k : String) :
    List.lookup k (GoMap.entries m) = List.lookup k m := by
  induction m with
  | nil => rfl
  | cons a rest ih =>
    obtain ⟨ka, va⟩ := a
    by_cases h : k = ka
    · subst h
      simp [GoMap.entries, List.lookup]
    · have hk : (k == ka) = false := by simpa using h
      simp only [GoMap.entries, List.lookup, hk]
      rw [lookup_filter_ne k ka h, ih]

theorem lookup_none_of_not_mem {V : Type} (k : String) (l : List (String × V))
    (h : k ∉ l.map Prod.fst) : List.lookup k l = none := by
  induction l with
  | nil => rfl
  | cons a rest ih =>
    obtain ⟨ka, va⟩ := a
    simp only [List.map_cons, List.mem_cons, not_or] at h
    have hk : (k == ka) = false := by simpa using h.1
    simp only [List.lookup, hk]
    exact ih h.2

theorem lookup_isSome_iff_mem {V : Type} (k : String) (l : List (String × V)) :
    (List.lookup k l).isSome = true ↔ k ∈ l.map Prod.fst := by
  induction l with
  | nil => simp [List.lookup]
  | cons a rest ih =>
    obtain ⟨ka, va⟩ := a
    by_cases h : k = ka
    · subst h
      simp [List.lookup]
    · have hk : (k == ka) = false := by simpa using h
      simp only [List.lookup, hk, List.map_cons, List.mem_cons, h, false_or]
      exact ih

theorem keys_eq_entries {V : Type} (m : GoMap V) :
    GoMap.keys m = (GoMap.entries m).map Prod.fst := by
  induction m with
  | nil => rfl
  | cons a rest ih =>
    obtain ⟨ka, va⟩ := a
    simp only [GoMap.keys, GoMap.entries, List.map_cons, ih, List.filter_map]
    rfl

theorem entries_nodup {V : Type} (m : GoMap V) : ((GoMap.entries m).map Prod.fst).Nodup := by
  induction m with
  | nil => simp [GoMap.entries]
  | cons a rest ih =>
    obtain ⟨ka, va⟩ := a
    simp only [GoMap.entries, List.map_cons, List.nodup_cons]
    constructor
    · simp [List.mem_map, List.mem_filter]
    · have : ((GoMap.entries rest).filter (fun kv => kv.1 != ka)).map Prod.fst =
          ((GoMap.entries rest).map Prod.fst).filter (fun x => x != ka) := by
        rw [List.filter_map]; rfl
      rw [this]
      exact ih.filter _

theorem mem_keys {V : Type} (m : GoMap V) (k : String) :
    k ∈ GoMap.keys m ↔ (GoMap.get? m k).isSome = true := by
  rw [keys_eq_entries, ← lookup_isSome_iff_mem, entries_lookup]
  rfl

/-! ## Theorems: integers as text -/

theorem digitVal_ofNat (d : Nat) (hd : d < 10) : digitVal (Char.ofNat (48 + d)) = some d := by
  interval_cases d <;> rfl

theorem parseDigits_append (xs ys : List Char) :
    ∀ a, parseDigits (xs ++ ys) a = (parseDigits xs a).bind (parseDigits ys) := by
  induction xs with
  | nil => intro a; rfl
  | cons c cs ih =>
    intro a
    simp only [List.cons_append, parseDigits]
    cases digitVal c with
    | none => rfl
    | some d => exact ih _

theorem formatNatAux_append (fuel : Nat) :
    ∀ n acc, formatNatAux fuel n acc = formatNatAux fuel n [] ++ acc := by
  induction fuel with
  | zero => intro n acc; rfl
  | succ f ih =>
    intro n acc
    simp only [formatNatAux]
    split
    · rfl
    · rw [ih (n / 10) (_ :: acc), ih (n / 10) [_]]
      simp

theorem parseDigits_formatNatAux (fuel : Nat) :
    ∀ n, n < fuel → ∀ a, ∃ e, parseDigits (formatNatAux fuel n []) a = some (a * 10 ^ e + n) := by
  induction fuel with
  | zero => intro n h; omega
  | succ f ih =>
    intro n hn a
    simp only [formatNatAux]
    split
    · rename_i h10
      refine ⟨1, ?_⟩
      simp [parseDigits, digitVal_ofNat n h10]
    · rename_i h10
      have hlt : n / 10 < f := by omega
      obtain ⟨e, he⟩ := ih (n / 10) hlt a
      refine ⟨e + 1, ?_⟩
      rw [formatNatAux_append, parseDigits_append, he]
      have hd : n % 10 < 10 := Nat.mod_lt _ (by decide)
      simp only [Option.bind, parseDigits, digitVal_ofNat _ hd]
      congr 1
      rw [pow_succ]
      have := Nat.div_add_mod n 10
      nlinarith

theorem parseDigits_formatNat (n : Nat) : parseDigits (formatNat n) 0 = some n := by
  obtain ⟨e, he⟩ := parseDigits_formatNatAux (n + 1) n (Nat.lt_succ_self n) 0
  simpa [formatNat] using he

theorem formatNatAux_head (fuel : Nat) :
    ∀ n acc, ∃ d cs, d < 10 ∧ formatNatAux (fuel + 1) n acc = Char.ofNat (48 + d) :: cs := by
  induction fuel with
  | zero =>
    intro n acc
    simp only [formatNatAux]
    split
    · rename_i h; exact ⟨n, acc, h, rfl⟩
    · exact ⟨n % 10, acc, Nat.mod_lt _ (by decide), rfl⟩
  | succ f ih =>
    intro n acc
    rw [formatNatAux]
    split
    · rename_i h; exact ⟨n, acc, h, rfl⟩
    · exact ih _ _

theorem Atoi_formatInt (n : Nat) (hn : n < 2 ^ 63) : Atoi (formatInt (n : Int)) = some (n : Int) := by
  obtain ⟨d, cs, hd, hcs⟩ := formatNatAux_head n n []
  have hparse := parseDigits_formatNat n
  have hfmt : formatInt (n : Int) = String.mk (formatNat n) := rfl
  unfold formatNat at hparse hfmt
  rw [hcs] at hparse hfmt
  rw [hfmt]
  unfold Atoi
  have hn2 : n < 9223372036854775808 := by norm_num at hn; exact hn
  interval_cases d <;> simp [hparse, hn2]

/-! ## Theorems: decoding a GET request -/

theorem decodeGetLoop_ok (q : Values) :
    ∀ ks st st1, decodeGetLoop q ks st = .ok st1 →
      st1.ResourceType = (if "resource_type" ∈ ks then q.Get "resource_type" else st.ResourceType) ∧
      st1.User = (if "zdnsuser" ∈ ks then q.Get "zdnsuser" else st.User) ∧
      st1.offset = (if "offset" ∈ ks then (Atoi (q.Get "offset")).getD 0 else st.offset) ∧
      st1.limit = (if "limit" ∈ ks then (Atoi (q.Get "limit")).getD 0 else st.limit) ∧
      ∀ key, GoMap.get? st1.Conds key =
        if key ∈ ks ∧ key ∉ reservedKeys then some (.str (q.Get key))
        else GoMap.get? st.Conds key := by
  intro ks
  induction ks with
  | nil =>
    intro st st1 h
    simp only [decodeGetLoop, Except.ok.injEq] at h
    subst h
    simp
  | cons k ks ih =>
    intro st st1 h
    rw [decodeGetLoop] at h
    by_cases h1 : k = "resource_type"
    · subst h1
      simp only [if_true] at h
      split at h
      · cases h
      · obtain ⟨a, b, c, d, e⟩ := ih _ _ h
        refine ⟨?_, ?_, ?_, ?_, ?_⟩
        · simp [a]
        · simpa using b
        · simpa using c
        · simpa using d
        · intro key
          rw [e key]
          by_cases hk : key = "resource_type"
          · subst hk; simp [reservedKeys]
          · simp [hk]
    · simp only [h1, if_false] at h
      by_cases h2 : k = "zdnsuser"
      · subst h2
        simp only [if_true] at h
        obtain ⟨a, b, c, d, e⟩ := ih _ _ h
        refine ⟨?_, ?_, ?_, ?_, ?_⟩
        · simpa using a
        · simp [b]
        · simpa using c
        · simpa using d
        · intro key
          rw [e key]
          by_cases hk : key = "zdnsuser"
          · subst hk; simp [reservedKeys]
          · simp [hk]
      · simp only [h2, if_false] at h
        by_cases h3 : k = "offset"
        · subst h3
          simp only [if_true] at h
          cases hat : Atoi (q.Get "offset") with
          | none => simp [hat] at h
          | some n =>
            simp only [hat] at h
            obtain ⟨a, b, c, d, e⟩ := ih _ _ h
            refine ⟨?_, ?_, ?_, ?_, ?_⟩
            · simpa using a
            · simpa using b
            · simp [c, hat]
            · simpa using d
            · intro key
              rw [e key]
              by_cases hk : key = "offset"
              · subst hk; simp [reservedKeys]
              · simp [hk]
        · simp only [h3, if_false] at h
          by_cases h4 : k = "limit"
          · subst h4
            simp only [if_true] at h
            cases hat : Atoi (q.Get "limit") with
            | none => simp [hat] at h
            | some n =>
              simp only [hat] at h
              obtain ⟨a, b, c, d, e⟩ := ih _ _ h
              refine ⟨?_, ?_, ?_, ?_, ?_⟩
              · simpa using a
              · simpa using b
              · simpa using c
              · simp [d, hat]
              · intro key
                rw [e key]
                by_cases hk : key = "limit"
                · subst hk; simp [reservedKeys]
                · simp [hk]
          · simp only [h4, if_false] at h
            by_cases h5 : k = "_"
            · subst h5
              simp only [ne_eq, not_true_eq_false, if_false] at h
              obtain ⟨a, b, c, d, e⟩ := ih _ _ h
              refine ⟨?_, ?_, ?_, ?_, ?_⟩
              · simpa using a
              · simpa using b
              · simpa using c
              · simpa using d
              · intro key
                rw [e key]
                by_cases hk : key = "_"
                · subst hk; simp [reservedKeys]
                · simp [hk]
            · simp only [ne_eq, h5, not_false_eq_true, if_true] at h
              obtain ⟨a, b, c, d, e⟩ := ih _ _ h
              have n1 : ¬ "resource_type" = k := fun x => h1 x.symm
              have n2 : ¬ "zdnsuser" = k := fun x => h2 x.symm
              have n3 : ¬ "offset" = k := fun x => h3 x.symm
              have n4 : ¬ "limit" = k := fun x => h4 x.symm
              refine ⟨?_, ?_, ?_, ?_, ?_⟩
              · simpa [n1] using a
              · simpa [n2] using b
              · simpa [n3] using c
              · simpa [n4] using d
              · intro key
                rw [e key]
                by_cases hk : key = k
                · subst hk
                  simp [reservedKeys, h1, h2, h3, h4, h5, GoMap.get?, GoMap.set, List.lookup]
                · have hb : (key == k) = false := by simpa using hk
                  simp [hk, GoMap.get?, GoMap.set, List.lookup, hb]

theorem paramInt_eq (q : Values) (name : String) :
    paramInt q name = if name ∈ GoMap.keys q then (Atoi (q.Get name)).getD 0 else 0 := by
  unfold paramInt
  cases hg : GoMap.get? q name with
  | none =>
    have : name ∉ GoMap.keys q := by
      rw [mem_keys, hg]; simp
    simp [this]
  | some v =>
    have : name ∈ GoMap.keys q := by
      rw [mem_keys, hg]; rfl
    simp [this]

/-- C7 as the code has it: on a GET request on which `decodeGetTask` succeeds, the
task holds one Get command, and its `Conds` has the keys `offset` and `limit`, bound
to the parsed integers, exactly when the parsed limit is positive and the parsed
offset is not negative, where a parameter that the query lacks counts as zero.  So
a request with an offset but no limit gets neither key, and a request with a
positive limit but no offset gets both, with offset zero. -/
theorem decodeGetTask_paging (r : Request) (t : Task) (h : decodeGetTask r = .ok t) :
    ∃ rt conds, t.Cmds = [.GetCmd rt conds] ∧
      GoMap.get? conds "offset" =
        (if 0 < paramInt r.Query "limit" ∧ 0 ≤ paramInt r.Query "offset"
          then some (.int (paramInt r.Query "offset")) else none) ∧
      GoMap.get? conds "limit" =
        (if 0 < paramInt r.Query "limit" ∧ 0 ≤ paramInt r.Query "offset"
          then some (.int (paramInt r.Query "limit")) else none) := by
  unfold decodeGetTask at h
  cases hl : decodeGetLoop r.Query (GoMap.keys r.Query) ⟨"", "", 0, 0, []⟩ with
  | error err => simp [hl] at h
  | ok st =>
    simp only [hl, Except.ok.injEq] at h
    obtain ⟨_, _, c, d, e⟩ := decodeGetLoop_ok _ _ _ _ hl
    have ho : st.offset = paramInt r.Query "offset" := by rw [paramInt_eq]; exact c
    have hlim : st.limit = paramInt r.Query "limit" := by rw [paramInt_eq]; exact d
    have e1 : GoMap.get? st.Conds "offset" = none := by
      rw [e]; simp [reservedKeys, GoMap.get?]
    have e2 : GoMap.get? st.Conds "limit" = none := by
      rw [e]; simp [reservedKeys, GoMap.get?]
    subst h
    refine ⟨_, _, rfl, ?_, ?_⟩
    · rw [← ho, ← hlim]
      by_cases hc : st.limit > 0 ∧ st.offset ≥ 0
      · have hc2 : 0 < st.limit ∧ 0 ≤ st.offset := hc
        simp only [hc, hc2, and_self, if_true]
        rfl
      · have hc2 : ¬ (0 < st.limit ∧ 0 ≤ st.offset) := hc
        simp only [hc, hc2, if_false]
        exact e1
    · rw [← ho, ← hlim]
      by_cases hc : st.limit > 0 ∧ st.offset ≥ 0
      · have hc2 : 0 < st.limit ∧ 0 ≤ st.offset := hc
        simp only [hc, hc2, and_self, if_true]
        rfl
      · have hc2 : ¬ (0 < st.limit ∧ 0 ≤ st.offset) := hc
        simp only [hc, hc2, if_false]
        exact e2

/-- Witness of C7: the query `resource_type=Host&offset=10&limit=5`. -/
theorem decodeGetTask_paging_witness :
    ∃ rt conds,
      (⟨"", [.GetCmd "Host" [("limit", .int 5), ("offset", .int 10)]]⟩ : Task).Cmds =
        [.GetCmd rt conds] ∧
      GoMap.get? conds "offset" =
        (if 0 < paramInt [("resource_type", ["Host"]), ("offset", ["10"]), ("limit", ["5"])] "limit" ∧
            0 ≤ paramInt [("resource_type", ["Host"]), ("offset", ["10"]), ("limit", ["5"])] "offset"
          then some (.int (paramInt
            [("resource_type", ["Host"]), ("offset", ["10"]), ("limit", ["5"])] "offset"))
          else none) ∧
      GoMap.get? conds "limit" =
        (if 0 < paramInt [("resource_type", ["Host"]), ("offset", ["10"]), ("limit", ["5"])] "limit" ∧
            0 ≤ paramInt [("resource_type", ["Host"]), ("offset", ["10"]), ("limit", ["5"])] "offset"
          then some (.int (paramInt
            [("resource_type", ["Host"]), ("offset", ["10"]), ("limit", ["5"])] "limit"))
          else none) :=
  decodeGetTask_paging
    ⟨"GET", "http://127.0.0.1:8080/hosts",
      [("resource_type", ["Host"]), ("offset", ["10"]), ("limit", ["5"])], .noBody⟩
    ⟨"", [.GetCmd "Host" [("limit", .int 5), ("offset", .int 10)]]⟩ rfl

/-- C7 as stated fails at the query `resource_type=Host&limit=5`: the request
supplies no offset parameter, and yet the decoded `Conds` holds both `offset`
(bound to zero) and `limit`. -/
theorem decodeGetTask_limit_only_injects_offset :
    GoMap.get? ([("resource_type", ["Host"]), ("limit", ["5"])] : Values) "offset" = none ∧
      decodeGetTask ⟨"GET", "http://127.0.0.1:8080/hosts",
        [("resource_type", ["Host"]), ("limit", ["5"])], .noBody⟩ =
        .ok ⟨"", [.GetCmd "Host" [("limit", .int 5), ("offset", .int 0)]]⟩ :=
  ⟨rfl, rfl⟩


/-! ## Theorems: round trip of a Get task -/

theorem foldl_set_lookup (es : List (String × CondValue)) :
    (es.map Prod.fst).Nodup → ∀ (base : Values) (k : String),
      List.lookup k (es.foldl (fun uv kv => Values.Set uv kv.1 (sprintV kv.2)) base) =
        match List.lookup k es with
        | some v => some [sprintV v]
        | none => List.lookup k base := by
  induction es with
  | nil => intro _ base k; rfl
  | cons a rest ih =>
    obtain ⟨ka, va⟩ := a
    intro hnd base k
    simp only [List.map_cons, List.nodup_cons] at hnd
    simp only [List.foldl_cons]
    rw [ih hnd.2]
    by_cases hk : k = ka
    · subst hk
      rw [lookup_none_of_not_mem k rest hnd.1]
      simp [Values.Set, GoMap.set, List.lookup]
    · have hb : (k == ka) = false := by simpa using hk
      simp only [List.lookup, hb, Values.Set, GoMap.set]

theorem encodeGet_query_get? (conds : GoMap CondValue) (base : Values) (k : String) :
    GoMap.get? ((GoMap.entries conds).foldl
        (fun uv kv => Values.Set uv kv.1 (sprintV kv.2)) base) k =
      match GoMap.get? conds k with
      | some v => some [sprintV v]
      | none => GoMap.get? base k := by
  unfold GoMap.get?
  rw [foldl_set_lookup _ (entries_nodup conds), entries_lookup]

theorem decodeGetLoop_succeeds (q : Values) :
    ∀ ks st, ("resource_type" ∈ ks → q.Get "resource_type" ≠ "") →
      ("offset" ∈ ks → (Atoi (q.Get "offset")).isSome = true) →
      ("limit" ∈ ks → (Atoi (q.Get "limit")).isSome = true) →
      ∃ st1, decodeGetLoop q ks st = .ok st1 := by
  intro ks
  induction ks with
  | nil => intro st _ _ _; exact ⟨st, rfl⟩
  | cons k ks ih =>
    intro st hr ho hl
    have hr2 : "resource_type" ∈ ks → q.Get "resource_type" ≠ "" :=
      fun h => hr (List.mem_cons_of_mem _ h)
    have ho2 : "offset" ∈ ks → (Atoi (q.Get "offset")).isSome = true :=
      fun h => ho (List.mem_cons_of_mem _ h)
    have hl2 : "limit" ∈ ks → (Atoi (q.Get "limit")).isSome = true :=
      fun h => hl (List.mem_cons_of_mem _ h)
    rw [decodeGetLoop]
    by_cases h1 : k = "resource_type"
    · subst h1
      have := hr (List.mem_cons_self _ _)
      simp only [if_true, this, if_false]
      exact ih _ hr2 ho2 hl2
    · simp only [h1, if_false]
      by_cases h2 : k = "zdnsuser"
      · simp only [h2, if_true]
        exact ih _ hr2 ho2 hl2
      · simp only [h2, if_false]
        by_cases h3 : k = "offset"
        · subst h3
          have := ho (List.mem_cons_self _ _)
          obtain ⟨n, hn⟩ := Option.isSome_iff_exists.mp this
          simp only [if_true, hn]
          exact ih _ hr2 ho2 hl2
        · simp only [h3, if_false]
          by_cases h4 : k = "limit"
          · subst h4
            have := hl (List.mem_cons_self _ _)
            obtain ⟨n, hn⟩ := Option.isSome_iff_exists.mp this
            simp only [if_true, hn]
            exact ih _ hr2 ho2 hl2
          · simp only [h4, if_false]
            by_cases h5 : k = "_"
            · simp only [h5, ne_eq, not_true_eq_false, if_false]
              exact ih _ hr2 ho2 hl2
            · simp only [ne_eq, h5, not_false_eq_true, if_true]
              exact ih _ hr2 ho2 hl2

theorem Values.Get_of_get? (q : Values) (k s : String) (h : GoMap.get? q k = some [s]) :
    q.Get k = s := by
  simp [Values.Get, h]

/-- C5: for a task that holds exactly one Get command with a non-empty resource type,
whose conditions are strings under keys other than `resource_type`, `zdnsuser`,
`offset`, `limit` and `_`, with or without an integer offset that is not negative
and a positive integer limit (both of them, within the range of `int`), and for an
end point whose URL parses, `DecodeTask` applied to the request built by `EncodeTask`
returns a task with the same user and a single Get command with the same resource
type and the same conditions: every key is bound as before, the strings unchanged,
offset and limit to the same integers. -/
theorem get_round_trip (p : RestProtocol) (user rt : String) (conds : GoMap CondValue)
    (hurl : p.endPoint.parseError = none) (hrt : rt ≠ "")
    (hstr : ∀ k v, k ∉ reservedKeys → GoMap.get? conds k = some v → ∃ s, v = .str s)
    (hres : ∀ k, k ∈ ["resource_type", "zdnsuser", "_"] → GoMap.get? conds k = none)
    (hpage : (GoMap.get? conds "offset" = none ∧ GoMap.get? conds "limit" = none) ∨
      ∃ o l : Int, 0 ≤ o ∧ o < 2 ^ 63 ∧ 0 < l ∧ l < 2 ^ 63 ∧
        GoMap.get? conds "offset" = some (.int o) ∧ GoMap.get? conds "limit" = some (.int l)) :
    ∃ conds1, roundTrip p ⟨user, [.GetCmd rt conds]⟩ = some (.ok ⟨user, [.GetCmd rt conds1]⟩) ∧
      ∀ k, GoMap.get? conds1 k = GoMap.get? conds k := by
  have hur := encodeGet_query_get? conds
    (Values.Set (Values.Set [] "resource_type" rt) "zdnsuser" user)
  generalize huv : (GoMap.entries conds).foldl
    (fun uv kv => Values.Set uv kv.1 (sprintV kv.2))
    (Values.Set (Values.Set [] "resource_type" rt) "zdnsuser" user) = uv at hur
  have hround : roundTrip p ⟨user, [.GetCmd rt conds]⟩ =
      some (decodeGetTask ⟨"GET", p.endPoint.serviceUrl, uv, .noBody⟩) := by
    simp only [roundTrip, EncodeTask, encodeGetTask, hurl, huv]
    rfl
  -- the query, key by key
  have hq_rt : uv.Get "resource_type" = rt := by
    apply Values.Get_of_get?
    rw [hur, hres "resource_type" (by simp)]
    rfl
  have hq_user : uv.Get "zdnsuser" = user := by
    apply Values.Get_of_get?
    rw [hur, hres "zdnsuser" (by simp)]
    rfl
  have hbase : ∀ k, k ≠ "resource_type" → k ≠ "zdnsuser" →
      GoMap.get? (Values.Set (Values.Set [] "resource_type" rt) "zdnsuser" user) k = none := by
    intro k h1 h2
    have b1 : (k == "zdnsuser") = false := by simpa using h2
    have b2 : (k == "resource_type") = false := by simpa using h1
    simp [Values.Set, GoMap.set, GoMap.get?, List.lookup, b1, b2]
  have hmem : ∀ k, k ≠ "resource_type" → k ≠ "zdnsuser" →
      (k ∈ GoMap.keys uv ↔ (GoMap.get? conds k).isSome = true) := by
    intro k h1 h2
    rw [mem_keys, hur, hbase k h1 h2]
    cases GoMap.get? conds k <;> simp
  have hmem_rt : "resource_type" ∈ GoMap.keys uv := by
    rw [mem_keys, hur, hres "resource_type" (by simp)]
    rfl
  have hmem_user : "zdnsuser" ∈ GoMap.keys uv := by
    rw [mem_keys, hur, hres "zdnsuser" (by simp)]
    rfl
  have hint : ∀ k (n : Int), 0 ≤ n → n < 2 ^ 63 → GoMap.get? conds k = some (.int n) →
      Atoi (uv.Get k) = some n := by
    intro k n h0 h1 hk
    have : uv.Get k = formatInt n := by
      apply Values.Get_of_get?
      rw [hur, hk]
      rfl
    rw [this]
    obtain ⟨m, rfl⟩ := Int.eq_ofNat_of_zero_le h0
    exact Atoi_formatInt m (by exact_mod_cast h1)
  rcases hpage with ⟨hno, hnl⟩ | ⟨o, l, ho0, ho1, hl0, hl1, hko, hkl⟩
  · -- no paging
    have hmo : "offset" ∉ GoMap.keys uv := by
      rw [hmem "offset" (by decide) (by decide), hno]; simp
    have hml : "limit" ∉ GoMap.keys uv := by
      rw [hmem "limit" (by decide) (by decide), hnl]; simp
    obtain ⟨st1, hst⟩ := decodeGetLoop_succeeds uv (GoMap.keys uv) ⟨"", "", 0, 0, []⟩
      (fun _ => by rw [hq_rt]; exact hrt) (fun h => absurd h hmo) (fun h => absurd h hml)
    obtain ⟨a, b, c, d, e⟩ := decodeGetLoop_ok _ _ _ _ hst
    simp only [hmem_rt, if_true, hq_rt] at a
    simp only [hmem_user, if_true, hq_user] at b
    simp only [hmo, if_false] at c
    simp only [hml, if_false] at d
    refine ⟨st1.Conds, ?_, ?_⟩
    · rw [hround]
      simp only [decodeGetTask, hst, a, b, c, d]
      simp
    · intro k
      rw [e k]
      by_cases hk : k ∈ reservedKeys
      · simp only [hk, not_true_eq_false, and_false, if_false]
        simp only [reservedKeys, List.mem_cons, List.mem_singleton, List.not_mem_nil,
          or_false] at hk
        rcases hk with h | h | h | h | h
        · rw [h, hres _ (by simp)]; rfl
        · rw [h, hres _ (by simp)]; rfl
        · rw [h, hno]; rfl
        · rw [h, hnl]; rfl
        · rw [h, hres _ (by simp)]; rfl
      · have h1 : k ≠ "resource_type" := fun h => hk (by simp [h, reservedKeys])
        have h2 : k ≠ "zdnsuser" := fun h => hk (by simp [h, reservedKeys])
        cases hc : GoMap.get? conds k with
        | none =>
          have : k ∉ GoMap.keys uv := by rw [hmem k h1 h2, hc]; simp
          simp [this, GoMap.get?]
        | some v =>
          have hin : k ∈ GoMap.keys uv := by rw [hmem k h1 h2, hc]; rfl
          obtain ⟨s, rfl⟩ := hstr k v hk hc
          have : uv.Get k = s := by
            apply Values.Get_of_get?
            rw [hur, hc]
            rfl
          simp [hin, hk, this]
  · -- offset and limit both set
    have hmo : "offset" ∈ GoMap.keys uv := by
      rw [hmem "offset" (by decide) (by decide), hko]; rfl
    have hml : "limit" ∈ GoMap.keys uv := by
      rw [hmem "limit" (by decide) (by decide), hkl]; rfl
    have hao := hint "offset" o ho0 ho1 hko
    have hal := hint "limit" l (le_of_lt hl0) hl1 hkl
    obtain ⟨st1, hst⟩ := decodeGetLoop_succeeds uv (GoMap.keys uv) ⟨"", "", 0, 0, []⟩
      (fun _ => by rw [hq_rt]; exact hrt) (fun _ => by rw [hao]; rfl) (fun _ => by rw [hal]; rfl)
    obtain ⟨a, b, c, d, e⟩ := decodeGetLoop_ok _ _ _ _ hst
    simp only [hmem_rt, if_true, hq_rt] at a
    simp only [hmem_user, if_true, hq_user] at b
    simp only [hmo, if_true, hao, Option.getD_some] at c
    simp only [hml, if_true, hal, Option.getD_some] at d
    have hcond : l > 0 ∧ o ≥ 0 := ⟨hl0, ho0⟩
    refine ⟨(st1.Conds.set "offset" (.int o)).set "limit" (.int l), ?_, ?_⟩
    · rw [hround]
      simp only [decodeGetTask, hst, a, b, c, d, hcond, and_self, if_true]
    · intro k
      by_cases hkl2 : k = "limit"
      · rw [hkl2, hkl]; rfl
      · by_cases hko2 : k = "offset"
        · rw [hko2, hko]; rfl
        · have b1 : (k == "limit") = false := by simpa using hkl2
          have b2 : (k == "offset") = false := by simpa using hko2
          have hstep : GoMap.get? ((st1.Conds.set "offset" (.int o)).set "limit" (.int l)) k =
              GoMap.get? st1.Conds k := by
            simp [GoMap.get?, GoMap.set, List.lookup, b1, b2]
          rw [hstep, e k]
          by_cases hk : k ∈ reservedKeys
          · simp only [hk, not_true_eq_false, and_false, if_false]
            simp only [reservedKeys, List.mem_cons, List.mem_singleton, List.not_mem_nil,
              or_false] at hk
            rcases hk with h | h | h | h | h
            · rw [h, hres _ (by simp)]; rfl
            · rw [h, hres _ (by simp)]; rfl
            · exact absurd h hko2
            · exact absurd h hkl2
            · rw [h, hres _ (by simp)]; rfl
          · have h1 : k ≠ "resource_type" := fun h => hk (by simp [h, reservedKeys])
            have h2 : k ≠ "zdnsuser" := fun h => hk (by simp [h, reservedKeys])
            cases hc : GoMap.get? conds k with
            | none =>
              have : k ∉ GoMap.keys uv := by rw [hmem k h1 h2, hc]; simp
              simp [this, GoMap.get?]
            | some v =>
              have hin : k ∈ GoMap.keys uv := by rw [hmem k h1 h2, hc]; rfl
              obtain ⟨s, rfl⟩ := hstr k v hk hc
              have : uv.Get k = s := by
                apply Values.Get_of_get?
                rw [hur, hc]
                rfl
              simp [hin, hk, this]


/-- Witness of C5: user `alice`, resource type `Host`, the one condition
`name = web1`. -/
theorem get_round_trip_witness :
    ∃ conds1, roundTrip sampleProtocol ⟨"alice", [.GetCmd "Host" [("name", .str "web1")]]⟩ =
        some (.ok ⟨"alice", [.GetCmd "Host" conds1]⟩) ∧
      ∀ k, GoMap.get? conds1 k = GoMap.get? [("name", CondValue.str "web1")] k :=
  get_round_trip sampleProtocol "alice" "Host" [("name", .str "web1")] rfl (by decide)
    (by
      intro k v _ h
      simp only [GoMap.get?, List.lookup] at h
      split at h
      · exact ⟨"web1", by cases h; rfl⟩
      · cases h)
    (by
      intro k hk
      simp only [List.mem_cons, List.mem_singleton, List.not_mem_nil, or_false] at hk
      rcases hk with h | h | h <;> subst h <;> rfl)
    (Or.inl ⟨rfl, rfl⟩)

/-! ## Theorems: the dispatcher and the checks of single commands -/

theorem lookupFailure_delete (store : ResourceStore) (rt id : String) :
    lookupFailure store "delete" rt id =
      match store.Count rt id with
      | .error err => some ("db get delete resource failed:" ++ err)
      | .ok count => if count = 0 then some ("delete unknown resource: " ++ rt) else none := by
  unfold lookupFailure
  cases store.Count rt id <;> rfl

theorem lookupFailure_update (store : ResourceStore) (rt id : String) :
    lookupFailure store "update" rt id =
      match store.Count rt id with
      | .error err => some ("db get update resource failed:" ++ err)
      | .ok count => if count = 0 then some ("update unknown resource: " ++ rt) else none := by
  unfold lookupFailure
  cases store.Count rt id <;> rfl

theorem postLoop_eq_checkAll (store : ResourceStore) (cmds : List Command)
    (hkind : ∀ c ∈ cmds, c.kind = .Post) :
    postLoop cmds = ((checkAll store cmds).1, LoopExit.ofFailure (checkAll store cmds).2) := by
  induction cmds with
  | nil => rfl
  | cons c rest ih =>
    have hc := hkind c (List.mem_cons_self _ _)
    have ih2 := ih (fun x hx => hkind x (List.mem_cons_of_mem _ hx))
    cases c <;> simp [Command.kind] at hc
    rename_i r
    cases hr : r.invalid with
    | some err => simp [postLoop, checkAll, Command.checkFailure, Command.checkEvents, hr,
        LoopExit.ofFailure]
    | none => simp [postLoop, checkAll, Command.checkFailure, Command.checkEvents, hr, ih2]

theorem deleteLoop_eq_checkAll (store : ResourceStore) (cmds : List Command)
    (hkind : ∀ c ∈ cmds, c.kind = .Delete) :
    deleteLoop store cmds =
      ((checkAll store cmds).1, LoopExit.ofFailure (checkAll store cmds).2) := by
  induction cmds with
  | nil => rfl
  | cons c rest ih =>
    have hc := hkind c (List.mem_cons_self _ _)
    have ih2 := ih (fun x hx => hkind x (List.mem_cons_of_mem _ hx))
    cases c <;> simp [Command.kind] at hc
    rename_i rt id
    simp only [deleteLoop, checkAll, Command.checkFailure, Command.checkEvents,
      lookupFailure_delete]
    cases hcount : store.Count rt id with
    | error err => simp [LoopExit.ofFailure]
    | ok count =>
      by_cases h0 : count = 0
      · simp [h0, LoopExit.ofFailure]
      · simp [h0, ih2]

theorem patchLoop_eq_checkAll (store : ResourceStore) (cmds : List Command)
    (hkind : ∀ c ∈ cmds, c.kind = .Patch) :
    patchLoop store cmds =
      ((checkAll store cmds).1, LoopExit.ofFailure (checkAll store cmds).2) := by
  induction cmds with
  | nil => rfl
  | cons c rest ih =>
    have hc := hkind c (List.mem_cons_self _ _)
    have ih2 := ih (fun x hx => hkind x (List.mem_cons_of_mem _ hx))
    cases c <;> simp [Command.kind] at hc
    rename_i rt id attrs
    simp only [patchLoop, checkAll, Command.checkFailure, Command.checkEvents,
      lookupFailure_update]
    cases hcount : store.Count rt id with
    | error err => simp [LoopExit.ofFailure]
    | ok count =>
      by_cases h0 : count = 0
      · simp [h0, LoopExit.ofFailure]
      · simp [h0, ih2]

theorem putLoop_eq_checkAll (store : ResourceStore) (cmds : List Command)
    (hkind : ∀ c ∈ cmds, c.kind = .Put) :
    putLoop store cmds =
      ((checkAll store cmds).1, LoopExit.ofFailure (checkAll store cmds).2) := by
  induction cmds with
  | nil => rfl
  | cons c rest ih =>
    have hc := hkind c (List.mem_cons_self _ _)
    have ih2 := ih (fun x hx => hkind x (List.mem_cons_of_mem _ hx))
    cases c <;> simp [Command.kind] at hc
    rename_i r
    simp only [putLoop, checkAll, Command.checkFailure, Command.checkEvents,
      lookupFailure_update]
    cases hr : r.invalid with
    | some err => simp [LoopExit.ofFailure]
    | none =>
      cases hcount : store.Count r.rtype r.id with
      | error err => simp [LoopExit.ofFailure]
      | ok count =>
        by_cases h0 : count = 0
        · simp [h0, LoopExit.ofFailure]
        · simp [h0, ih2]

theorem checkAll_isCheck (store : ResourceStore) (cmds : List Command) :
    ∀ e ∈ (checkAll store cmds).1, e.isCheck = true := by
  have hev : ∀ c : Command, ∀ e ∈ c.checkEvents, e.isCheck = true := by
    intro c e he
    cases c with
    | GetCmd rt conds => simp [Command.checkEvents] at he
    | PostCmd r => simp [Command.checkEvents] at he; subst he; rfl
    | DeleteCmd rt id => simp [Command.checkEvents] at he; subst he; rfl
    | PatchCmd rt id attrs => simp [Command.checkEvents] at he; subst he; rfl
    | PutCmd r =>
      simp only [Command.checkEvents] at he
      cases hr : r.invalid with
      | some err => simp [hr] at he; subst he; rfl
      | none =>
        simp [hr] at he
        rcases he with h | h <;> subst h <;> rfl
  induction cmds with
  | nil => simp [checkAll]
  | cons c rest ih =>
    intro e he
    simp only [checkAll] at he
    cases hf : c.checkFailure store with
    | some err =>
      simp only [hf] at he
      exact hev c e he
    | none =>
      simp only [hf, List.mem_append] at he
      rcases he with h | h
      · exact hev c e h
      · exact ih e h

theorem checkAll_pass (store : ResourceStore) (cmds : List Command)
    (hpass : ∀ c ∈ cmds, c.checkFailure store = none) :
    checkAll store cmds = (cmds.flatMap Command.checkEvents, none) := by
  induction cmds with
  | nil => rfl
  | cons c rest ih =>
    have hc := hpass c (List.mem_cons_self _ _)
    have ih2 := ih (fun x hx => hpass x (List.mem_cons_of_mem _ hx))
    simp [checkAll, hc, ih2]

theorem checkAll_fail (store : ResourceStore) (pre : List Command) (c : Command)
    (post : List Command) (err : String)
    (hpre : ∀ x ∈ pre, x.checkFailure store = none) (hc : c.checkFailure store = some err) :
    checkAll store (pre ++ c :: post) = ((pre ++ [c]).flatMap Command.checkEvents, some err) := by
  induction pre with
  | nil => simp [checkAll, hc]
  | cons x rest ih =>
    have hx := hpre x (List.mem_cons_self _ _)
    have ih2 := ih (fun y hy => hpre y (List.mem_cons_of_mem _ hy))
    simp [checkAll, hx, ih2]

/-- What `HandleTask` does on a non-empty task of Put, of Delete or of Patch
commands, in terms of the checks taken one command at a time. -/
theorem HandleTask_guarded {R : Type} (svc : RestService R) (store : ResourceStore)
    (t : Task) (c : Command) (rest : List Command) (ht : t.Cmds = c :: rest)
    (hg : c.kind.guarded = true) (hkind : ∀ x ∈ t.Cmds, x.kind = c.kind) :
    restServiceAdaptor.HandleTask svc store t =
      match (checkAll store t.Cmds).2 with
      | none => ⟨.Begin :: (checkAll store t.Cmds).1 ++ [c.kind.handlerEvent, .Commit],
          some (svc.handler c.kind t)⟩
      | some err => ⟨.Begin :: (checkAll store t.Cmds).1 ++ [.Commit],
          some (svc.Failed t err)⟩ := by
  obtain ⟨user, cmds⟩ := t
  simp only at ht
  subst ht
  cases c with
  | GetCmd rt conds => simp [Command.kind, Kind.guarded] at hg
  | PostCmd r => simp [Command.kind, Kind.guarded] at hg
  | DeleteCmd rt id =>
    simp only [restServiceAdaptor.HandleTask, guarded, deleteLoop_eq_checkAll store _ hkind]
    cases (checkAll store (Command.DeleteCmd rt id :: rest)).2 <;> rfl
  | PutCmd r =>
    simp only [restServiceAdaptor.HandleTask, guarded, putLoop_eq_checkAll store _ hkind]
    cases (checkAll store (Command.PutCmd r :: rest)).2 <;> rfl
  | PatchCmd rt id attrs =>
    simp only [restServiceAdaptor.HandleTask, guarded, patchLoop_eq_checkAll store _ hkind]
    cases (checkAll store (Command.PatchCmd rt id attrs :: rest)).2 <;> rfl

theorem filter_isHandler_checks (l : List Event) (h : ∀ e ∈ l, e.isCheck = true) :
    l.filter Event.isHandler = [] := by
  rw [List.filter_eq_nil_iff]
  intro e he
  have := h e he
  cases e <;> simp [Event.isCheck] at this <;> simp [Event.isHandler]

theorem countP_isBegin_checks (l : List Event)
    (h : ∀ e ∈ l, e.isCheck = true ∨ e.isHandler = true) : l.countP Event.isBegin = 0 := by
  rw [List.countP_eq_zero]
  intro e he
  have := h e he
  cases e <;> simp [Event.isCheck, Event.isHandler] at this <;> simp [Event.isBegin]

theorem countP_isCommit_checks (l : List Event)
    (h : ∀ e ∈ l, e.isCheck = true ∨ e.isHandler = true) : l.countP Event.isCommit = 0 := by
  rw [List.countP_eq_zero]
  intro e he
  have := h e he
  cases e <;> simp [Event.isCheck, Event.isHandler] at this <;> simp [Event.isCommit]

theorem handlerEvent_isHandler (k : Kind) : k.handlerEvent.isHandler = true := by
  cases k <;> rfl

/-- C14: on a non-empty task whose commands are all of the kind of the first one and
all pass the check of that kind (no check for Get; `Validate` for Post; `Validate`
and a lookup with a non-zero count and no store error for Put; such a lookup for
Delete and Patch), `HandleTask` returns what the handler of that kind returns for
this very task, the handler calls in its trace are that one call and no other, and
for a Get task the trace holds no store call. -/
theorem HandleTask_delegates {R : Type} (svc : RestService R) (store : ResourceStore)
    (t : Task) (c : Command) (rest : List Command) (ht : t.Cmds = c :: rest)
    (hkind : ∀ x ∈ t.Cmds, x.kind = c.kind)
    (hpass : ∀ x ∈ t.Cmds, x.checkFailure store = none) :
    (restServiceAdaptor.HandleTask svc store t).result = some (svc.handler c.kind t) ∧
      (restServiceAdaptor.HandleTask svc store t).trace.filter Event.isHandler =
        [c.kind.handlerEvent] ∧
      (c.kind = .Get →
        ∀ e ∈ (restServiceAdaptor.HandleTask svc store t).trace, e.isStoreCall = false) := by
  have hall := checkAll_pass store t.Cmds hpass
  have hchecks := checkAll_isCheck store t.Cmds
  rw [hall] at hchecks
  by_cases hg : c.kind.guarded = true
  · rw [HandleTask_guarded svc store t c rest ht hg hkind, hall]
    refine ⟨rfl, ?_, ?_⟩
    · simp only [List.filter_cons, List.filter_append, filter_isHandler_checks _ hchecks,
        handlerEvent_isHandler]
      simp [Event.isHandler]
    · intro hget
      rw [hget] at hg
      simp [Kind.guarded] at hg
  · obtain ⟨user, cmds⟩ := t
    simp only at ht
    subst ht
    cases c with
    | GetCmd rt conds =>
      refine ⟨rfl, rfl, ?_⟩
      intro _ e he
      simp only [restServiceAdaptor.HandleTask, List.mem_singleton] at he
      subst he
      rfl
    | PostCmd r =>
      simp only [restServiceAdaptor.HandleTask, postLoop_eq_checkAll store _ hkind, hall,
        LoopExit.ofFailure]
      refine ⟨rfl, ?_, ?_⟩
      · simp only [List.filter_append, filter_isHandler_checks _ hchecks]
        rfl
      · intro hget
        simp [Command.kind] at hget
    | DeleteCmd rt id => simp [Command.kind, Kind.guarded] at hg
    | PutCmd r => simp [Command.kind, Kind.guarded] at hg
    | PatchCmd rt id attrs => simp [Command.kind, Kind.guarded] at hg

/-- C15: on a non-empty task of Put, of Delete or of Patch commands the trace of
`HandleTask` starts with the one `Begin`, ends with the one `Commit`, and holds in
between only `Validate` calls, `Count` lookups and handler calls, whether the checks
pass or one of them fails; so no other call on the transaction, such as a rollback,
is made. -/
theorem HandleTask_one_transaction {R : Type} (svc : RestService R) (store : ResourceStore)
    (t : Task) (c : Command) (rest : List Command) (ht : t.Cmds = c :: rest)
    (hg : c.kind.guarded = true) (hkind : ∀ x ∈ t.Cmds, x.kind = c.kind) :
    ∃ mid, (restServiceAdaptor.HandleTask svc store t).trace = .Begin :: mid ++ [.Commit] ∧
      (∀ e ∈ mid, e.isCheck = true ∨ e.isHandler = true) ∧
      (restServiceAdaptor.HandleTask svc store t).trace.countP Event.isBegin = 1 ∧
      (restServiceAdaptor.HandleTask svc store t).trace.countP Event.isCommit = 1 := by
  have hchecks := checkAll_isCheck store t.Cmds
  have key : ∃ mid, (restServiceAdaptor.HandleTask svc store t).trace =
      .Begin :: mid ++ [.Commit] ∧ (∀ e ∈ mid, e.isCheck = true ∨ e.isHandler = true) := by
    rw [HandleTask_guarded svc store t c rest ht hg hkind]
    cases (checkAll store t.Cmds).2 with
    | none =>
      refine ⟨(checkAll store t.Cmds).1 ++ [c.kind.handlerEvent], by simp, ?_⟩
      intro e he
      simp only [List.mem_append, List.mem_singleton] at he
      rcases he with h | h
      · exact Or.inl (hchecks e h)
      · subst h
        exact Or.inr (handlerEvent_isHandler _)
    | some err =>
      exact ⟨(checkAll store t.Cmds).1, rfl, fun e he => Or.inl (hchecks e he)⟩
  obtain ⟨mid, hmid, hall⟩ := key
  refine ⟨mid, hmid, hall, ?_, ?_⟩
  · rw [hmid]
    simp [List.countP_cons, List.countP_append, countP_isBegin_checks mid hall, Event.isBegin]
  · rw [hmid]
    simp [List.countP_cons, List.countP_append, countP_isCommit_checks mid hall,
      Event.isCommit]


/-- Witness of C14: deleting the one `Host` that the sample store holds. -/
theorem HandleTask_delegates_witness :
    (restServiceAdaptor.HandleTask sampleService sampleStore
        ⟨"alice", [.DeleteCmd "Host" "1"]⟩).result =
        some (sampleService.handler (Command.DeleteCmd "Host" "1").kind
          ⟨"alice", [.DeleteCmd "Host" "1"]⟩) ∧
      (restServiceAdaptor.HandleTask sampleService sampleStore
        ⟨"alice", [.DeleteCmd "Host" "1"]⟩).trace.filter Event.isHandler =
        [(Command.DeleteCmd "Host" "1").kind.handlerEvent] ∧
      ((Command.DeleteCmd "Host" "1").kind = .Get →
        ∀ e ∈ (restServiceAdaptor.HandleTask sampleService sampleStore
          ⟨"alice", [.DeleteCmd "Host" "1"]⟩).trace, e.isStoreCall = false) :=
  HandleTask_delegates sampleService sampleStore ⟨"alice", [.DeleteCmd "Host" "1"]⟩
    (.DeleteCmd "Host" "1") [] rfl
    (by intro x hx; simp only [List.mem_singleton] at hx; subst hx; rfl)
    (by intro x hx; simp only [List.mem_singleton] at hx; subst hx; rfl)

/-- Witness of C15: a Patch task whose second command names an unknown resource. -/
theorem HandleTask_one_transaction_witness :
    ∃ mid, (restServiceAdaptor.HandleTask sampleService sampleStore
        ⟨"alice", [.PatchCmd "Host" "1" none, .PatchCmd "Host" "9" none]⟩).trace =
          .Begin :: mid ++ [.Commit] ∧
      (∀ e ∈ mid, e.isCheck = true ∨ e.isHandler = true) ∧
      (restServiceAdaptor.HandleTask sampleService sampleStore
        ⟨"alice", [.PatchCmd "Host" "1" none, .PatchCmd "Host" "9" none]⟩).trace.countP
          Event.isBegin = 1 ∧
      (restServiceAdaptor.HandleTask sampleService sampleStore
        ⟨"alice", [.PatchCmd "Host" "1" none, .PatchCmd "Host" "9" none]⟩).trace.countP
          Event.isCommit = 1 :=
  HandleTask_one_transaction sampleService sampleStore
    ⟨"alice", [.PatchCmd "Host" "1" none, .PatchCmd "Host" "9" none]⟩
    (.PatchCmd "Host" "1" none) [.PatchCmd "Host" "9" none] rfl rfl
    (by
      intro x hx
      simp only [List.mem_cons, List.mem_singleton, List.not_mem_nil, or_false] at hx
      rcases hx with h | h <;> subst h <;> rfl)

/-- C18: on a non-empty task of Put, of Delete or of Patch commands in which the
command `c` is the first whose check fails (its resource fails `Validate`, or its
lookup returns a store error or a count of zero), the trace of `HandleTask` is
`Begin`, then the checks of the commands up to and including `c` in sequence order,
then `Commit`: no `Validate` call and no lookup is made for a later command.  The
result is `t.Failed` of the failure of `c`, and when a count of zero is the cause the
failure is the `unknown resource` error that names the resource type of `c`. -/
theorem HandleTask_first_failure {R : Type} (svc : RestService R) (store : ResourceStore)
    (t : Task) (pre : List Command) (c : Command) (post : List Command) (err : String)
    (ht : t.Cmds = pre ++ c :: post) (hg : c.kind.guarded = true)
    (hkind : ∀ x ∈ t.Cmds, x.kind = c.kind)
    (hpre : ∀ x ∈ pre, x.checkFailure store = none) (hc : c.checkFailure store = some err) :
    restServiceAdaptor.HandleTask svc store t =
        ⟨.Begin :: (pre ++ [c]).flatMap Command.checkEvents ++ [.Commit],
          some (svc.Failed t err)⟩ ∧
      ∀ key, c.lookupKey = some key → c.validationError = none →
        store.Count key.1 key.2 = .ok 0 →
        err = (if c.kind = .Delete then "delete" else "update") ++ " unknown resource: " ++
          key.1 := by
  constructor
  · have hall := checkAll_fail store pre c post err hpre hc
    rw [← ht] at hall
    cases pre with
    | nil =>
      rw [HandleTask_guarded svc store t c post ht hg hkind, hall]
    | cons x more =>
      have hx : x.kind = c.kind := hkind x (by rw [ht]; simp)
      have hkind2 : ∀ y ∈ t.Cmds, y.kind = x.kind := fun y hy => by rw [hx]; exact hkind y hy
      rw [HandleTask_guarded svc store t x (more ++ c :: post) ht (by rw [hx]; exact hg) hkind2,
        hall]
  · intro key hkey hvalid hzero
    cases c with
    | GetCmd rt conds => simp [Command.lookupKey] at hkey
    | PostCmd r => simp [Command.lookupKey] at hkey
    | DeleteCmd rt id =>
      simp only [Command.lookupKey, Option.some.injEq] at hkey
      subst hkey
      simp only at hzero
      simp only [Command.checkFailure, lookupFailure, hzero, if_true, Option.some.injEq] at hc
      simp [Command.kind, ← hc]
    | PatchCmd rt id attrs =>
      simp only [Command.lookupKey, Option.some.injEq] at hkey
      subst hkey
      simp only at hzero
      simp only [Command.checkFailure, lookupFailure, hzero, if_true, Option.some.injEq] at hc
      simp [Command.kind, ← hc]
    | PutCmd r =>
      simp only [Command.lookupKey, Option.some.injEq] at hkey
      subst hkey
      simp only at hzero
      simp only [Command.validationError] at hvalid
      simp only [Command.checkFailure, hvalid, lookupFailure, hzero, if_true,
        Option.some.injEq] at hc
      simp [Command.kind, ← hc]

/-- Witness of C18: the second of three Delete commands names an unknown resource. -/
theorem HandleTask_first_failure_witness :
    restServiceAdaptor.HandleTask sampleService sampleStore
        ⟨"alice", [.DeleteCmd "Host" "1", .DeleteCmd "Host" "42", .DeleteCmd "Host" "43"]⟩ =
        ⟨.Begin :: ([Command.DeleteCmd "Host" "1"] ++ [Command.DeleteCmd "Host" "42"]).flatMap
            Command.checkEvents ++ [.Commit],
          some (sampleService.Failed
            ⟨"alice", [.DeleteCmd "Host" "1", .DeleteCmd "Host" "42", .DeleteCmd "Host" "43"]⟩
            "delete unknown resource: Host")⟩ ∧
      ∀ key, (Command.DeleteCmd "Host" "42").lookupKey = some key →
        (Command.DeleteCmd "Host" "42").validationError = none →
        sampleStore.Count key.1 key.2 = .ok 0 →
        "delete unknown resource: Host" =
          (if (Command.DeleteCmd "Host" "42").kind = .Delete then "delete" else "update") ++
            " unknown resource: " ++ key.1 :=
  HandleTask_first_failure sampleService sampleStore
    ⟨"alice", [.DeleteCmd "Host" "1", .DeleteCmd "Host" "42", .DeleteCmd "Host" "43"]⟩
    [.DeleteCmd "Host" "1"] (.DeleteCmd "Host" "42") [.DeleteCmd "Host" "43"]
    "delete unknown resource: Host" rfl rfl
    (by
      intro x hx
      simp only [List.mem_cons, List.mem_singleton, List.not_mem_nil, or_false] at hx
      rcases hx with h | h | h <;> subst h <;> rfl)
    (by intro x hx; simp only [List.mem_singleton] at hx; subst hx; rfl)
    rfl

/-- C19 as the code has it: on a non-empty task of Put, of Delete or of Patch commands
whose checks all pass, the trace of `HandleTask` is `Begin`, the checks of all
commands in sequence order, the call of the handler, and then `Commit`: the handler
is invoked before the `Commit` of the precondition transaction, which is deferred
and is the last call. -/
theorem HandleTask_commit_after_handler {R : Type} (svc : RestService R)
    (store : ResourceStore) (t : Task) (c : Command) (rest : List Command)
    (ht : t.Cmds = c :: rest) (hg : c.kind.guarded = true)
    (hkind : ∀ x ∈ t.Cmds, x.kind = c.kind)
    (hpass : ∀ x ∈ t.Cmds, x.checkFailure store = none) :
    (restServiceAdaptor.HandleTask svc store t).trace =
      .Begin :: t.Cmds.flatMap Command.checkEvents ++ [c.kind.handlerEvent, .Commit] := by
  rw [HandleTask_guarded svc store t c rest ht hg hkind, checkAll_pass store t.Cmds hpass]

/-- Witness of C19 as amended: a Delete task on the one `Host` of the sample store. -/
theorem HandleTask_commit_after_handler_witness :
    (restServiceAdaptor.HandleTask sampleService sampleStore
        ⟨"alice", [.DeleteCmd "Host" "1"]⟩).trace =
      .Begin :: [Command.DeleteCmd "Host" "1"].flatMap Command.checkEvents ++
        [(Command.DeleteCmd "Host" "1").kind.handlerEvent, .Commit] :=
  HandleTask_commit_after_handler sampleService sampleStore ⟨"alice", [.DeleteCmd "Host" "1"]⟩
    (.DeleteCmd "Host" "1") [] rfl rfl
    (by intro x hx; simp only [List.mem_singleton] at hx; subst hx; rfl)
    (by intro x hx; simp only [List.mem_singleton] at hx; subst hx; rfl)

/-- C19 as stated fails on the Delete task for the `Host` with id `1`, which the sample
store holds: the check passes, and the trace of `HandleTask` has the call of
`HandleDelete` before the `Commit`, not after it. -/
theorem HandleTask_handler_precedes_commit :
    (Command.DeleteCmd "Host" "1").checkFailure sampleStore = none ∧
      restServiceAdaptor.HandleTask sampleService sampleStore
          ⟨"alice", [.DeleteCmd "Host" "1"]⟩ =
        ⟨[.Begin, .Count "Host" "1", .HandleDelete, .Commit], some "delete done"⟩ :=
  ⟨rfl, rfl⟩


/-! ## Theorems: decoding a DELETE request -/

theorem getLast?_cons_getD {α : Type} (a d : α) (l : List α) :
    (a :: l).getLast?.getD d = l.getLast?.getD a := by
  cases l with
  | nil => rfl
  | cons b rest =>
    rw [List.getLast?_cons_cons]
    cases h : (b :: rest).getLast? with
    | none => simp at h
    | some x => rfl

theorem unmarshalMembers_storeId (members : List (String × Json)) :
    ∀ cur, (unmarshalMembers storeId members cur).1 =
      (idStrings (.obj members)).getLast?.getD cur := by
  induction members with
  | nil => intro cur; rfl
  | cons kv rest ih =>
    intro cur
    obtain ⟨k, v⟩ := kv
    simp only [unmarshalMembers, idStrings, List.filterMap_cons] at ih ⊢
    rw [ih]
    cases hf : fieldFor ["id"] k with
    | none => simp [storeId, hf]
    | some name =>
      cases v <;> simp [storeId, hf, storeString, getLast?_cons_getD]

theorem unmarshal_storeId (entry : Json) :
    (unmarshalStruct storeId "" entry).1 = entryId entry := by
  cases entry with
  | obj members => exact unmarshalMembers_storeId members ""
  | null => rfl
  | bool b => rfl
  | num n => rfl
  | str s => rfl
  | arr items => rfl

/-- C11 as the code has it: for a DELETE request whose body parses as the envelope
`tt`, `DecodeTask` succeeds with the user of the envelope and one Delete command per
entry, in entry order, each with the resource type of the envelope; the id of a
command is the string that its entry binds to `id` (the key matched exactly or up to
case, the last such string if there are several) and the empty string when the entry
binds none, whether or not `json.Unmarshal` reports an error for the entry. -/
theorem decodeDelete_envelope (p : RestProtocol) (r : Request) (tt : taskInJson)
    (hmethod : r.Method = "DELETE") (hbody : readEnvelope r = .ok tt) :
    DecodeTask p r =
      .ok ⟨tt.User, tt.Attrs.map (fun entry => .DeleteCmd tt.ResourceType (entryId entry))⟩ := by
  simp [DecodeTask, hmethod, decodeDeleteTask, hbody, unmarshal_storeId]

/-- Witness of C11: the body
`{"resource_type":"Host","zdnsuser":"alice","attrs":[{"id":"42"}]}` gives the user
`alice` and the one command `Delete{Host, 42}`. -/
theorem decodeDelete_envelope_witness :
    DecodeTask sampleProtocol ⟨"DELETE", "http://127.0.0.1:8080/hosts", [],
        .json (.obj [("resource_type", .str "Host"), ("zdnsuser", .str "alice"),
          ("attrs", .arr [.obj [("id", .str "42")]])])⟩ =
      .ok ⟨"alice", [.DeleteCmd "Host" "42"]⟩ :=
  decodeDelete_envelope sampleProtocol _ ⟨"Host", "alice", [.obj [("id", .str "42")]]⟩ rfl rfl

/-- C11 as stated fails at the body
`{"resource_type":"Host","zdnsuser":"alice","attrs":[{"id":"7","id":5}]}`: the entry
is malformed, `json.Unmarshal` reports a type error for it, and yet the command
carries the id `7`, not the empty string. -/
theorem decodeDelete_malformed_entry_keeps_id :
    (unmarshalStruct storeId "" (.obj [("id", .str "7"), ("id", .num 5)])).2 =
        some "json: cannot unmarshal value into Go value of type string" ∧
      DecodeTask sampleProtocol ⟨"DELETE", "http://127.0.0.1:8080/hosts", [],
          .json (.obj [("resource_type", .str "Host"), ("zdnsuser", .str "alice"),
            ("attrs", .arr [.obj [("id", .str "7"), ("id", .num 5)]])])⟩ =
        .ok ⟨"alice", [.DeleteCmd "Host" "7"]⟩ :=
  ⟨rfl, rfl⟩

/-! ## Theorems: more on decoding -/

theorem decodeGetTask_ok (r : Request) (t : Task) (h : decodeGetTask r = .ok t) :
    ∃ st, decodeGetLoop r.Query (GoMap.keys r.Query) ⟨"", "", 0, 0, []⟩ = .ok st ∧
      t = ⟨st.User, [.GetCmd st.ResourceType
        (if st.limit > 0 ∧ st.offset ≥ 0 then
          (st.Conds.set "offset" (.int st.offset)).set "limit" (.int st.limit)
        else st.Conds)]⟩ := by
  unfold decodeGetTask at h
  cases hl : decodeGetLoop r.Query (GoMap.keys r.Query) ⟨"", "", 0, 0, []⟩ with
  | error err => simp [hl] at h
  | ok st =>
    simp only [hl, Except.ok.injEq] at h
    exact ⟨st, rfl, h.symm⟩

/-- C12: on a GET request on which `decodeGetTask` succeeds and whose `limit`
parameter is an integer that is not greater than zero, the `Conds` of the Get command
has neither the key `offset` nor the key `limit`, whatever the `offset` parameter. -/
theorem decodeGetTask_limit_not_positive (r : Request) (t : Task) (n : Int)
    (h : decodeGetTask r = .ok t)
    (hpresent : (GoMap.get? r.Query "limit").isSome = true)
    (hlimit : Atoi (r.Query.Get "limit") = some n) (hn : n ≤ 0) :
    ∃ rt conds, t.Cmds = [.GetCmd rt conds] ∧
      GoMap.get? conds "offset" = none ∧ GoMap.get? conds "limit" = none := by
  obtain ⟨st, hl, ht⟩ := decodeGetTask_ok r t h
  obtain ⟨_, _, _, d, e⟩ := decodeGetLoop_ok _ _ _ _ hl
  have hmem : "limit" ∈ GoMap.keys r.Query := (mem_keys _ _).mpr hpresent
  simp only [hmem, if_true, hlimit, Option.getD_some] at d
  have hcond : ¬ (st.limit > 0 ∧ st.offset ≥ 0) := by
    rw [d]
    intro hc
    exact absurd hc.1 (not_lt.mpr hn)
  subst ht
  refine ⟨_, _, rfl, ?_, ?_⟩
  · simp only [hcond, if_false]
    rw [e]
    simp [reservedKeys, GoMap.get?]
  · simp only [hcond, if_false]
    rw [e]
    simp [reservedKeys, GoMap.get?]

/-- Witness of C12: the query `resource_type=Host&offset=10&limit=0`. -/
theorem decodeGetTask_limit_not_positive_witness :
    ∃ rt conds, (⟨"", [.GetCmd "Host" []]⟩ : Task).Cmds = [.GetCmd rt conds] ∧
      GoMap.get? conds "offset" = none ∧ GoMap.get? conds "limit" = none :=
  decodeGetTask_limit_not_positive
    ⟨"GET", "http://127.0.0.1:8080/hosts",
      [("resource_type", ["Host"]), ("offset", ["10"]), ("limit", ["0"])], .noBody⟩
    ⟨"", [.GetCmd "Host" []]⟩ 0 rfl rfl rfl (le_refl 0)

/-- The part of C20 that the code keeps: every command of a decoded task is of the
kind that goes with the method of the request. -/
theorem DecodeTask_kinds (p : RestProtocol) (r : Request) (t : Task)
    (h : DecodeTask p r = .ok t) :
    ∀ c ∈ t.Cmds, methodKind r.Method = some c.kind := by
  unfold DecodeTask at h
  unfold methodKind
  by_cases h1 : r.Method = "GET"
  · simp only [h1, if_true] at h ⊢
    obtain ⟨st, _, ht⟩ := decodeGetTask_ok r t h
    subst ht
    intro c hc
    simp only [List.mem_singleton] at hc
    subst hc
    rfl
  · simp only [h1, if_false] at h ⊢
    by_cases h2 : r.Method = "POST"
    · simp only [h2, if_true] at h ⊢
      unfold decodePostTask at h
      cases he : readEnvelope r with
      | error err => simp [he] at h
      | ok tt =>
        simp only [he] at h
        cases hr : decodeResources p.serializer tt.ResourceType tt.Attrs with
        | error err => simp [hr] at h
        | ok rs =>
          simp only [hr, Except.ok.injEq] at h
          subst h
          intro c hc
          simp only [List.mem_map] at hc
          obtain ⟨x, _, rfl⟩ := hc
          rfl
    · simp only [h2, if_false] at h ⊢
      by_cases h3 : r.Method = "PUT"
      · simp only [h3, if_true] at h ⊢
        unfold decodePutTask at h
        cases he : readEnvelope r with
        | error err => simp [he] at h
        | ok tt =>
          simp only [he] at h
          cases hr : decodeResources p.serializer tt.ResourceType tt.Attrs with
          | error err => simp [hr] at h
          | ok rs =>
            simp only [hr, Except.ok.injEq] at h
            subst h
            intro c hc
            simp only [List.mem_map] at hc
            obtain ⟨x, _, rfl⟩ := hc
            rfl
      · simp only [h3, if_false] at h ⊢
        by_cases h4 : r.Method = "DELETE"
        · simp only [h4, if_true] at h ⊢
          unfold decodeDeleteTask at h
          cases he : readEnvelope r with
          | error err => simp [he] at h
          | ok tt =>
            simp only [he, Except.ok.injEq] at h
            subst h
            intro c hc
            simp only [List.mem_map] at hc
            obtain ⟨x, _, rfl⟩ := hc
            rfl
        · simp only [h4, if_false] at h ⊢
          by_cases h5 : r.Method = "PATCH"
          · simp only [h5, if_true] at h ⊢
            unfold decodePatchTask at h
            cases he : readEnvelope r with
            | error err => simp [he] at h
            | ok tt =>
              simp only [he] at h
              cases hr : decodePatchLoop tt.Attrs ⟨[], ⟨"", none⟩⟩ with
              | error err => simp [hr] at h
              | ok out =>
                simp only [hr, Except.ok.injEq] at h
                subst h
                intro c hc
                simp only [List.mem_map] at hc
                obtain ⟨x, _, rfl⟩ := hc
                rfl
          · simp [h5] at h

/-- C20, evaluated at the DELETE body
`{"resource_type":"Host","zdnsuser":"alice","attrs":[]}`: `DecodeTask` succeeds and
returns a task without commands, and `HandleTask` panics on that task when it reads
`t.Cmds[0]`. -/
theorem DecodeTask_empty_attrs_panics_dispatch :
    DecodeTask sampleProtocol ⟨"DELETE", "http://127.0.0.1:8080/hosts", [],
        .json (.obj [("resource_type", .str "Host"), ("zdnsuser", .str "alice"),
          ("attrs", .arr [])])⟩ = .ok ⟨"alice", []⟩ ∧
      restServiceAdaptor.HandleTask sampleService sampleStore ⟨"alice", []⟩ = ⟨[], none⟩ :=
  ⟨rfl, rfl⟩

/-! ## Theorems: proxy -/

theorem decodeTail_trace (proto : Protocol) (trace : List ProxyEvent) (response : Response)
    (succeed failure : Option Shape) :
    (decodeTail proto trace response succeed failure).trace =
      trace ++ [.DecodeTaskResult response] := by
  unfold decodeTail
  cases proto.DecodeTaskResult response succeed failure with
  | none => rfl
  | some res => cases res <;> rfl

theorem usableResponse_of_body (response : Response) (body : Body)
    (h : response.Body = some body) : usableResponse (some response) = some response := by
  simp [usableResponse, h]

theorem usableResponse_of_absent (r : Option Response)
    (h : r = none ∨ ∃ response, r = some response ∧ response.Body = none) :
    usableResponse r = none := by
  rcases h with h | ⟨response, h, hb⟩
  · subst h; rfl
  · subst h; simp [usableResponse, hb]

/-- C16: in a `RestProxy.HandleTask` call in which the first `EncodeTask` returns the
request `req` and `Connect` succeeds: if the first `Send` returns a response that is
not nil and has a body that is not nil, `req` is the only request sent and
`ReConnect` is not called; if it returns a nil response or a response with a nil
body, `ReConnect` is called exactly once, and if `ReConnect` succeeds and the second
`EncodeTask` of the same task returns `req2`, the requests sent are `req` and then
`req2` and no other.  In every call of `HandleTask` there are at most two calls of
`Send` and at most one of `ReConnect`. -/
theorem HandleTask_one_retry (proto : Protocol) (client : RestClient) (t : Task)
    (succeed failure : Option Shape) :
    (∀ req, proto.EncodeTask 0 t = .request req → client.Connect = none →
      (∀ response body, (client.Send 0 req).1 = some response → response.Body = some body →
        (RestProxy.HandleTask proto client t succeed failure).trace.filterMap
            ProxyEvent.sendRequest = [req] ∧
          (RestProxy.HandleTask proto client t succeed failure).trace.countP
            ProxyEvent.isReConnect = 0) ∧
      (((client.Send 0 req).1 = none ∨
          ∃ response, (client.Send 0 req).1 = some response ∧ response.Body = none) →
        (RestProxy.HandleTask proto client t succeed failure).trace.countP
            ProxyEvent.isReConnect = 1 ∧
          (client.ReConnect = none → ∀ req2, proto.EncodeTask 1 t = .request req2 →
            (RestProxy.HandleTask proto client t succeed failure).trace.filterMap
              ProxyEvent.sendRequest = [req, req2]))) ∧
    (RestProxy.HandleTask proto client t succeed failure).trace.countP ProxyEvent.isSend ≤ 2 ∧
    (RestProxy.HandleTask proto client t succeed failure).trace.countP
      ProxyEvent.isReConnect ≤ 1 := by
  refine ⟨?_, ?_⟩
  · intro req henc hconn
    constructor
    · intro response body hsend hbody
      have hresp : usableResponse (client.Send 0 req).1 = some response := by
        rw [hsend]
        exact usableResponse_of_body response body hbody
      simp only [RestProxy.HandleTask, henc, hconn, hresp, decodeTail_trace]
      simp [ProxyEvent.sendRequest, ProxyEvent.isReConnect, List.countP_cons]
    · intro habsent
      have hnone : usableResponse (client.Send 0 req).1 = none :=
        usableResponse_of_absent _ habsent
      constructor
      · simp only [RestProxy.HandleTask, henc, hconn, hnone]
        cases client.ReConnect with
        | some err => simp [ProxyEvent.isReConnect, List.countP_cons]
        | none =>
          cases proto.EncodeTask 1 t with
          | panic => simp [ProxyEvent.isReConnect, List.countP_cons]
          | error err => simp [ProxyEvent.isReConnect, List.countP_cons]
          | request req2 =>
            cases hu : usableResponse (client.Send 1 req2).1 with
            | none => simp [hu, ProxyEvent.isReConnect, List.countP_cons]
            | some resp =>
              simp [hu, decodeTail_trace, ProxyEvent.isReConnect, List.countP_cons]
      · intro hre req2 henc2
        simp only [RestProxy.HandleTask, henc, hconn, hnone, hre, henc2]
        cases hu : usableResponse (client.Send 1 req2).1 with
        | none => simp [hu, ProxyEvent.sendRequest]
        | some resp => simp [hu, decodeTail_trace, ProxyEvent.sendRequest]
  · unfold RestProxy.HandleTask
    cases proto.EncodeTask 0 t with
    | panic => simp [ProxyEvent.isSend, ProxyEvent.isReConnect, List.countP_cons]
    | error err => simp [ProxyEvent.isSend, ProxyEvent.isReConnect, List.countP_cons]
    | request req =>
      cases client.Connect with
      | some err => simp [ProxyEvent.isSend, ProxyEvent.isReConnect, List.countP_cons]
      | none =>
        cases hu0 : usableResponse (client.Send 0 req).1 with
        | some resp =>
          simp [hu0, decodeTail_trace, ProxyEvent.isSend, ProxyEvent.isReConnect, List.countP_cons]
        | none =>
          cases client.ReConnect with
          | some err => simp [hu0, ProxyEvent.isSend, ProxyEvent.isReConnect, List.countP_cons]
          | none =>
            cases proto.EncodeTask 1 t with
            | panic => simp [hu0, ProxyEvent.isSend, ProxyEvent.isReConnect, List.countP_cons]
            | error err => simp [hu0, ProxyEvent.isSend, ProxyEvent.isReConnect, List.countP_cons]
            | request req2 =>
              cases hu1 : usableResponse (client.Send 1 req2).1 with
              | none => simp [hu0, hu1, ProxyEvent.isSend, ProxyEvent.isReConnect, List.countP_cons]
              | some resp =>
                simp [hu0, hu1, decodeTail_trace, ProxyEvent.isSend, ProxyEvent.isReConnect,
                  List.countP_cons]

/-- What `HandleTask` does when neither `Send` yields a usable response: it returns
the error that the second `Send` reported, as it is, and never calls
`DecodeTaskResult`. -/
theorem HandleTask_no_response (proto : Protocol) (client : RestClient) (t : Task)
    (succeed failure : Option Shape) (req req2 : Request)
    (henc : proto.EncodeTask 0 t = .request req) (hconn : client.Connect = none)
    (hfirst : usableResponse (client.Send 0 req).1 = none) (hre : client.ReConnect = none)
    (henc2 : proto.EncodeTask 1 t = .request req2)
    (hsecond : usableResponse (client.Send 1 req2).1 = none) :
    RestProxy.HandleTask proto client t succeed failure =
      ⟨[.EncodeTask t, .Connect, .Send req, .ReConnect, .EncodeTask t, .Send req2],
        some (client.Send 1 req2).2⟩ := by
  simp only [RestProxy.HandleTask, henc, hconn, hfirst, hre, henc2, hsecond]

/-- C17, evaluated at a client whose first `Send` fails and whose second `Send` returns
a response without a body and no error: neither `Send` yields a usable response,
`HandleTask` never calls `DecodeTaskResult`, and it returns the nil error, that is,
it reports success. -/
theorem HandleTask_reports_success_without_response :
    usableResponse (sampleClient.Send 0
        ⟨"DELETE", "http://127.0.0.1:8080/hosts", [],
          .json (taskInJson.marshal ⟨"Host", "alice", [marshalId "42"]⟩)⟩).1 = none ∧
      usableResponse (sampleClient.Send 1
        ⟨"DELETE", "http://127.0.0.1:8080/hosts", [],
          .json (taskInJson.marshal ⟨"Host", "alice", [marshalId "42"]⟩)⟩).1 = none ∧
      RestProxy.HandleTask (sampleProtocol.toProtocol 200) sampleClient
          ⟨"alice", [.DeleteCmd "Host" "42"]⟩ none none =
        ⟨[.EncodeTask ⟨"alice", [.DeleteCmd "Host" "42"]⟩, .Connect,
            .Send ⟨"DELETE", "http://127.0.0.1:8080/hosts", [],
              .json (taskInJson.marshal ⟨"Host", "alice", [marshalId "42"]⟩)⟩,
            .ReConnect, .EncodeTask ⟨"alice", [.DeleteCmd "Host" "42"]⟩,
            .Send ⟨"DELETE", "http://127.0.0.1:8080/hosts", [],
              .json (taskInJson.marshal ⟨"Host", "alice", [marshalId "42"]⟩)⟩],
          some none⟩ :=
  ⟨rfl, rfl, rfl⟩

/-- Witness of C16: with the client whose first `Send` returns a response with a body
there is one `Send` and no `ReConnect`; with the client whose first `Send` returns a
nil response there is one `ReConnect` and a second `Send` of the request encoded
anew. -/
theorem HandleTask_one_retry_witness :
    ((RestProxy.HandleTask (sampleProtocol.toProtocol 200)
        (sampleClientOk (.obj [("deleted", .num 1)]))
        ⟨"alice", [.DeleteCmd "Host" "42"]⟩ none none).trace.filterMap
          ProxyEvent.sendRequest =
        [⟨"DELETE", "http://127.0.0.1:8080/hosts", [],
            .json (taskInJson.marshal ⟨"Host", "alice", [marshalId "42"]⟩)⟩] ∧
      (RestProxy.HandleTask (sampleProtocol.toProtocol 200)
        (sampleClientOk (.obj [("deleted", .num 1)]))
        ⟨"alice", [.DeleteCmd "Host" "42"]⟩ none none).trace.countP
          ProxyEvent.isReConnect = 0) ∧
      (RestProxy.HandleTask (sampleProtocol.toProtocol 200) sampleClient
        ⟨"alice", [.DeleteCmd "Host" "42"]⟩ none none).trace.countP
          ProxyEvent.isReConnect = 1 ∧
      (RestProxy.HandleTask (sampleProtocol.toProtocol 200) sampleClient
        ⟨"alice", [.DeleteCmd "Host" "42"]⟩ none none).trace.filterMap
          ProxyEvent.sendRequest =
        [⟨"DELETE", "http://127.0.0.1:8080/hosts", [],
            .json (taskInJson.marshal ⟨"Host", "alice", [marshalId "42"]⟩)⟩,
          ⟨"DELETE", "http://127.0.0.1:8080/hosts", [],
            .json (taskInJson.marshal ⟨"Host", "alice", [marshalId "42"]⟩)⟩] :=
  ⟨((HandleTask_one_retry (sampleProtocol.toProtocol 200)
      (sampleClientOk (.obj [("deleted", .num 1)]))
      ⟨"alice", [.DeleteCmd "Host" "42"]⟩ none none).1 _ rfl rfl).1
      ⟨200, some (.json (.obj [("deleted", .num 1)]))⟩ _ rfl rfl,
    (((HandleTask_one_retry (sampleProtocol.toProtocol 200) sampleClient
      ⟨"alice", [.DeleteCmd "Host" "42"]⟩ none none).1 _ rfl rfl).2 (Or.inl rfl)).1,
    (((HandleTask_one_retry (sampleProtocol.toProtocol 200) sampleClient
      ⟨"alice", [.DeleteCmd "Host" "42"]⟩ none none).1 _ rfl rfl).2 (Or.inl rfl)).2 rfl _ rfl⟩

/-! ## Theorems: Delete tasks with strings that are not valid UTF-8 -/

theorem decodeRune_encodeRune (n : Nat) (hn : n < 0xD800 ∨ (0xDFFF < n ∧ n < 0x110000))
    (rest : List Nat) : decodeRune (encodeRune n ++ rest) = some (n, rest) := by
  unfold encodeRune
  by_cases h1 : n < 0x80
  · simp [h1, decodeRune]
  · by_cases h2 : n < 0x800
    · have a1 : ¬ (0xC0 + n / 64 < 0x80) := by omega
      have a2 : ¬ (0xC0 + n / 64 < 0xC2) := by omega
      have a3 : 0xC0 + n / 64 < 0xE0 := by omega
      have a4 : 0x80 ≤ 0x80 + n % 64 ∧ 0x80 + n % 64 ≤ 0xBF := by omega
      have a5 : (0xC0 + n / 64 - 0xC0) * 64 + (0x80 + n % 64 - 0x80) = n := by omega
      simp only [h1, h2, if_false, if_true, List.cons_append, List.nil_append, decodeRune, a1, a2,
        a3, a4, and_self, a5]
    · by_cases h3 : n < 0x10000
      · have a1 : ¬ (0xE0 + n / 4096 < 0x80) := by omega
        have a2 : ¬ (0xE0 + n / 4096 < 0xC2) := by omega
        have a3 : ¬ (0xE0 + n / 4096 < 0xE0) := by omega
        have a4 : 0xE0 + n / 4096 < 0xF0 := by omega
        have a5 : (acceptRange (0xE0 + n / 4096)).1 ≤ 0x80 + n / 64 % 64 ∧
            0x80 + n / 64 % 64 ≤ (acceptRange (0xE0 + n / 4096)).2 ∧
            0x80 ≤ 0x80 + n % 64 ∧ 0x80 + n % 64 ≤ 0xBF := by
          unfold acceptRange
          by_cases e0 : 0xE0 + n / 4096 = 0xE0
          · simp only [e0, if_true]; omega
          · by_cases ed : 0xE0 + n / 4096 = 0xED
            · simp only [ed, if_true]
              norm_num
              omega
            · have e3 : ¬ (0xE0 + n / 4096 = 0xF0) := by omega
              have e4 : ¬ (0xE0 + n / 4096 = 0xF4) := by omega
              simp only [e0, ed, e3, e4, if_false]; omega
        have a6 : (0xE0 + n / 4096 - 0xE0) * 4096 + (0x80 + n / 64 % 64 - 0x80) * 64 +
            (0x80 + n % 64 - 0x80) = n := by omega
        simp only [h1, h2, h3, if_false, if_true, List.cons_append, List.nil_append, decodeRune,
          a1, a2, a3, a4, a5, and_self, a6]
      · have a1 : ¬ (0xF0 + n / 262144 < 0x80) := by omega
        have a2 : ¬ (0xF0 + n / 262144 < 0xC2) := by omega
        have a3 : ¬ (0xF0 + n / 262144 < 0xE0) := by omega
        have a4 : ¬ (0xF0 + n / 262144 < 0xF0) := by omega
        have a4b : 0xF0 + n / 262144 < 0xF5 := by omega
        have a5 : (acceptRange (0xF0 + n / 262144)).1 ≤ 0x80 + n / 4096 % 64 ∧
            0x80 + n / 4096 % 64 ≤ (acceptRange (0xF0 + n / 262144)).2 ∧
            0x80 ≤ 0x80 + n / 64 % 64 ∧ 0x80 + n / 64 % 64 ≤ 0xBF ∧
            0x80 ≤ 0x80 + n % 64 ∧ 0x80 + n % 64 ≤ 0xBF := by
          unfold acceptRange
          have e0 : ¬ (0xF0 + n / 262144 = 0xE0) := by omega
          have ed : ¬ (0xF0 + n / 262144 = 0xED) := by omega
          by_cases e3 : 0xF0 + n / 262144 = 0xF0
          · rw [e3]
            norm_num
            omega
          · by_cases e4 : 0xF0 + n / 262144 = 0xF4
            · simp only [e4, if_true]
              norm_num
              omega
            · simp only [e0, ed, e3, e4, if_false]; omega
        have a6 : (0xF0 + n / 262144 - 0xF0) * 262144 + (0x80 + n / 4096 % 64 - 0x80) * 4096 +
            (0x80 + n / 64 % 64 - 0x80) * 64 + (0x80 + n % 64 - 0x80) = n := by omega
        simp only [h1, h2, h3, if_false, List.cons_append, List.nil_append, decodeRune,
          a1, a2, a3, a4, a4b, if_true, a5, and_self, a6]


theorem encodeRune_lt (n : Nat) (hn : n < 0x110000) : ∀ b ∈ encodeRune n, b < 256 := by
  intro b hb
  unfold encodeRune at hb
  split_ifs at hb <;> simp at hb <;> omega

theorem encodeRune_cons (n : Nat) : ∃ b0 tail, encodeRune n = b0 :: tail := by
  unfold encodeRune
  split_ifs <;> exact ⟨_, _, rfl⟩

theorem map_val_ofNat (l : List Nat) (h : ∀ b ∈ l, b < 256) :
    (l.map Byte.ofNat).map Fin.val = l := by
  induction l with
  | nil => rfl
  | cons b rest ih =>
    have hb : b < 256 := h b (List.mem_cons_self _ _)
    have hrest := ih (fun x hx => h x (List.mem_cons_of_mem _ hx))
    simp only [List.map_cons, hrest, Byte.ofNat, Nat.mod_eq_of_lt hb]

theorem char_rune (c : Char) : c.toNat < 0xD800 ∨ (0xDFFF < c.toNat ∧ c.toNat < 0x110000) :=
  c.valid

theorem readRunes_encode (cs : List Char) :
    ∀ fuel, (cs.flatMap (fun c => encodeRune c.toNat)).length ≤ fuel →
      readRunes fuel (cs.flatMap (fun c => encodeRune c.toNat)) = cs := by
  induction cs with
  | nil =>
    intro fuel _
    cases fuel <;> rfl
  | cons c rest ih =>
    intro fuel hfuel
    obtain ⟨b0, tail, henc⟩ := encodeRune_cons c.toNat
    have hdec := decodeRune_encodeRune c.toNat (char_rune c)
      (rest.flatMap (fun c => encodeRune c.toNat))
    simp only [List.flatMap_cons, List.length_append] at hfuel ⊢
    rw [henc] at hfuel hdec ⊢
    simp only [List.length_cons] at hfuel
    cases fuel with
    | zero => omega
    | succ f =>
      simp only [List.cons_append] at hdec ⊢
      simp only [readRunes, hdec, Char.ofNat_toNat]
      rw [ih f (by omega)]

theorem text_ofText (s : String) : (GoString.ofText s).text = s := by
  have hlt : ∀ b ∈ s.data.flatMap (fun c => encodeRune c.toNat), b < 256 := by
    intro b hb
    simp only [List.mem_flatMap] at hb
    obtain ⟨c, _, hc⟩ := hb
    have := char_rune c
    exact encodeRune_lt c.toNat (by omega) b hc
  unfold GoString.text GoString.ofText
  rw [map_val_ofNat _ hlt, List.length_map, readRunes_encode _ _ (le_refl _)]

theorem ofText_text_of_valid (g : GoString) (h : g.valid) : GoString.ofText g.text = g := by
  obtain ⟨s, rfl⟩ := h
  rw [text_ofText]

theorem bytes_encodeDeleteLoop_same (rt : GoString) (ids : List GoString) :
    ∀ r0, (r0 = [] ∨ r0 = rt) →
      Bytes.encodeDeleteLoop (ids.map (fun id => ⟨rt, id⟩)) r0 =
        (if ids = [] then r0 else rt, ids.map (fun id => marshalId id.text)) := by
  induction ids with
  | nil => intro r0 _; rfl
  | cons id rest ih =>
    intro r0 h0
    have hr : (if r0 = [] then rt else r0) = rt := by
      rcases h0 with h | h
      · simp [h]
      · subst h; simp
    simp only [List.map_cons, Bytes.encodeDeleteLoop, hr]
    rw [ih rt (Or.inr rfl)]
    simp

theorem bytes_ofCmds_texts (rt : GoString) (ids : List GoString) (hrt : rt.valid)
    (hids : ∀ id ∈ ids, id.valid) :
    Bytes.ofCmds (ids.map (fun id => Command.DeleteCmd rt.text id.text)) =
      ids.map (fun id => ⟨rt, id⟩) := by
  induction ids with
  | nil => rfl
  | cons id rest ih =>
    have h1 := hids id (List.mem_cons_self _ _)
    have h2 := ih (fun x hx => hids x (List.mem_cons_of_mem _ hx))
    simp only [List.map_cons, Bytes.ofCmds, h2, ofText_text_of_valid rt hrt,
      ofText_text_of_valid id h1]

/-- C4 as the code has it: for a task of one or more Delete commands that all name the
resource type `rt`, the strings of the task being Go strings, and an end point whose
URL parses, `DecodeTask` applied to the request built by `EncodeTask` returns a task
with as many Delete commands in the same order, whose user, resource type and ids
are the texts that `json.Marshal` writes for the original strings, with U+FFFD in
place of every byte at which no valid UTF-8 encoding starts.  When the user, the
resource type and the ids are valid UTF-8, the returned task is the original one. -/
theorem delete_round_trip_bytes (p : RestProtocol) (user rt : GoString)
    (ids : List GoString) (hne : ids ≠ []) (hurl : p.endPoint.parseError = none) :
    Bytes.roundTrip p ⟨user, ids.map (fun id => ⟨rt, id⟩)⟩ =
        some (.ok ⟨user.text, ids.map (fun id => .DeleteCmd rt.text id.text)⟩) ∧
      (user.valid → rt.valid → (∀ id ∈ ids, id.valid) →
        Bytes.ofTask ⟨user.text, ids.map (fun id => .DeleteCmd rt.text id.text)⟩ =
          ⟨user, ids.map (fun id => ⟨rt, id⟩)⟩) := by
  constructor
  · cases ids with
    | nil => exact absurd rfl hne
    | cons id rest =>
      have hloop := bytes_encodeDeleteLoop_same rt (id :: rest) [] (Or.inl rfl)
      simp only [List.map_cons] at hloop
      simp only [Bytes.roundTrip, Bytes.EncodeTask, Bytes.encodeDeleteTask, List.map_cons, hloop,
        bodyRequest, hurl]
      simp [DecodeTask, decodeDeleteTask, readEnvelope_marshal, unmarshal_marshalId]
  · intro hu hr hids
    simp only [Bytes.ofTask, bytes_ofCmds_texts rt ids hr hids, ofText_text_of_valid user hu]

/-- Witness of C4 as amended: two Delete commands on `Host`, all strings valid UTF-8. -/
theorem delete_round_trip_bytes_witness :
    Bytes.roundTrip sampleProtocol
        ⟨GoString.ofText "alice",
          [GoString.ofText "42", GoString.ofText "7"].map
            (fun id => ⟨GoString.ofText "Host", id⟩)⟩ =
        some (.ok ⟨"alice", [.DeleteCmd "Host" "42", .DeleteCmd "Host" "7"]⟩) ∧
      Bytes.ofTask ⟨"alice", [.DeleteCmd "Host" "42", .DeleteCmd "Host" "7"]⟩ =
        ⟨GoString.ofText "alice",
          [GoString.ofText "42", GoString.ofText "7"].map
            (fun id => ⟨GoString.ofText "Host", id⟩)⟩ :=
  ⟨(delete_round_trip_bytes sampleProtocol (GoString.ofText "alice") (GoString.ofText "Host")
      [GoString.ofText "42", GoString.ofText "7"] (by simp) rfl).1,
    (delete_round_trip_bytes sampleProtocol (GoString.ofText "alice") (GoString.ofText "Host")
      [GoString.ofText "42", GoString.ofText "7"] (by simp) rfl).2
      ⟨"alice", rfl⟩ ⟨"Host", rfl⟩
      (by
        intro id hid
        simp only [List.mem_cons, List.mem_singleton, List.not_mem_nil, or_false] at hid
        rcases hid with h | h
        · exact ⟨"42", h⟩
        · exact ⟨"7", h⟩)⟩

/-- C4 as stated fails on the task of `alice` with the one Delete command on `Host`
whose id is the single byte 0xFF, which is not valid UTF-8: the request that
`EncodeTask` builds decodes to a Delete command whose id is the rune U+FFFD, and the
bytes of that id, EF BF BD, are not the byte 0xFF of the original. -/
theorem delete_round_trip_invalid_utf8 :
    Bytes.roundTrip sampleProtocol
        ⟨GoString.ofText "alice", [⟨GoString.ofText "Host", [Byte.ofNat 0xFF]⟩]⟩ =
        some (.ok ⟨"alice", [.DeleteCmd "Host" (String.mk [Char.ofNat 0xFFFD])]⟩) ∧
      GoString.ofText (String.mk [Char.ofNat 0xFFFD]) =
        [Byte.ofNat 0xEF, Byte.ofNat 0xBF, Byte.ofNat 0xBD] ∧
      GoString.ofText (String.mk [Char.ofNat 0xFFFD]) ≠ [Byte.ofNat 0xFF] :=
  ⟨rfl, rfl, by decide⟩

/-- On a task of Delete commands whose strings are texts, `EncodeTask` over Go strings
builds the request that `EncodeTask` over texts builds. -/
theorem bytes_EncodeTask_texts (p : RestProtocol) (user rt : String) (ids : List String) :
    Bytes.EncodeTask p
        ⟨GoString.ofText user, ids.map (fun id => ⟨GoString.ofText rt, GoString.ofText id⟩)⟩ =
      RestProtocol.EncodeTask p ⟨user, ids.map (Command.DeleteCmd rt)⟩ := by
  cases ids with
  | nil => rfl
  | cons id rest =>
    have h1 := bytes_encodeDeleteLoop_same (GoString.ofText rt)
      ((id :: rest).map GoString.ofText) [] (Or.inl rfl)
    have h2 := encodeDeleteLoop_same rt (id :: rest) "" (Or.inl rfl)
    simp only [List.map_cons, List.map_map] at h1 h2
    simp only [Bytes.EncodeTask, Bytes.encodeDeleteTask, RestProtocol.EncodeTask,
      RestProtocol.encodeDeleteTask, List.map_cons]
    have h1b : Bytes.encodeDeleteLoop
        (⟨GoString.ofText rt, GoString.ofText id⟩ ::
          List.map (fun id => ⟨GoString.ofText rt, GoString.ofText id⟩) rest) [] =
        (GoString.ofText rt, marshalId id :: rest.map marshalId) := by
      have : List.map (fun id => (⟨GoString.ofText rt, GoString.ofText id⟩ : Bytes.DeleteCmd))
          rest = List.map ((fun g => (⟨GoString.ofText rt, g⟩ : Bytes.DeleteCmd)) ∘
            GoString.ofText) rest := rfl
      rw [this, h1]
      simp [text_ofText, Function.comp_def]
    rw [h1b, h2]
    simp [text_ofText]

end Rest
